import Mathlib

/-
  Verification development for the Multiplayer-Snake-Game server
  (src/server.py).  The definitions below are a shallow embedding of the
  server's state and operations:

  * `Snake`, `World` embed the `Snake` class and the `Server` state
    (`snakes`, `writers`, `food`, `next_pid`); the `players` reader map is
    not needed by any property and is omitted.
  * Randomness (`random.randrange`, `random.choice`) is embedded by
    passing the drawn values explicitly: a raw natural-number seed reduced
    modulo the grid dimension models `randrange`, and `spawn_food`
    consumes an explicit list of candidate draws.  The unbounded retry
    loop of `spawn_food` is embedded as an `Option`: `none` models the
    loop not terminating within the supplied draws.
  * `game_tick` is the per-tick physics step, a left fold of the
    per-snake body of the `for pid, s in list(self.snakes.items())` loop;
    Python dicts are insertion ordered, so the snake map is an
    association list processed in order, and in-place object mutation is
    embedded as replacing the entry at the same key.
  * `handle_line` embeds one iteration of the `handle_client` read loop
    after `readline`: JSON decoding failures are one input class,
    successfully decoded values are an explicit JSON value type.  An
    uncaught Python exception (AttributeError on `msg.get` for a
    non-object, TypeError on `d in DIRS` for an unhashable `dir` value)
    is embedded as `none`, after which the `finally` cleanup block runs.
  * `broadcast_frame` embeds rendering plus the write pass; write
    failures are an oracle `fails : Nat → Bool`; Python list indexing
    `rows[y][x] = c` (negative indices wrap once, out of range raises) is
    embedded by `py_idx` / `py_set2`, with `none` for the raising case.
-/

/-- Grid width, server.py line 8. -/
def WIDTH : Int := 30

/-- Grid height, server.py line 9. -/
def HEIGHT : Int := 15

/-- The four direction keys of the `DIRS` dictionary. -/
inductive Dir
  | U
  | D
  | L
  | R
deriving DecidableEq

/-- Movement vectors, server.py lines 13-18. -/
def DIRS : Dir → Int × Int
  | .U => (0, -1)
  | .D => (0, 1)
  | .L => (-1, 0)
  | .R => (1, 0)

/-- Grid position: integer pair (x, y). -/
abbrev Pos := Int × Int

/-- The `Snake` class, server.py lines 20-29. -/
structure Snake where
  pid : Nat
  body : List Pos
  dir : Dir
  grow : Int
  alive : Bool
deriving DecidableEq

/-- Server state, server.py lines 36-41: the id→Snake map and the
id→writer map are insertion-ordered association structures; for the
writer map only the registered ids matter to the properties. -/
structure World where
  snakes : List (Nat × Snake)
  writers : List Nat
  food : List Pos
  next_pid : Nat
deriving DecidableEq

/-- Dictionary lookup `self.snakes.get(pid)` on the association list. -/
def lookupSnake (pid : Nat) : List (Nat × Snake) → Option Snake
  | [] => none
  | (q, s) :: rest => if q = pid then some s else lookupSnake pid rest

/-- In-place mutation of the snake object stored at an existing key:
the entry at the key is replaced, order and all other entries kept. -/
def setSnake (pid : Nat) (s : Snake) : List (Nat × Snake) → List (Nat × Snake)
  | [] => []
  | (q, t) :: rest => if q = pid then (q, s) :: rest else (q, t) :: setSnake pid s rest

/-- Alive flag of the snake registered at `p` (false when absent). -/
def alive_at (snakes : List (Nat × Snake)) (p : Nat) : Bool :=
  match lookupSnake p snakes with
  | some s => s.alive
  | none => false

/-- The function `spawn_food`, server.py lines 67-81.  Each candidate
draw is a pair of raw seeds reduced modulo the grid dimensions (the
image of `random.randrange(WIDTH)`, `random.randrange(HEIGHT)`).  A
candidate is rejected when its cell lies on ANY snake's body (dead
snakes included, line 75 has no alive check) or already holds food.
Returns the placed position and the unconsumed draws, or `none` when
the supplied draws are exhausted (the Python loop would keep drawing). -/
def spawn_food (snakes : List (Nat × Snake)) (food : List Pos) :
    List (Nat × Nat) → Option (Pos × List (Nat × Nat))
  | [] => none
  | c :: rest =>
    let p : Pos := ((c.1 : Int) % WIDTH, (c.2 : Int) % HEIGHT)
    if snakes.any (fun q => decide (p ∈ q.2.body)) then
      spawn_food snakes food rest
    else if p ∈ food then
      spawn_food snakes food rest
    else
      some (p, rest)

/-- Candidate next head, server.py lines 176-183: head plus direction
vector, each axis wrapped by the Python `%` (Euclidean remainder). -/
def next_head (d : Dir) (h : Pos) : Pos :=
  ((h.1 + (DIRS d).1) % WIDTH, (h.2 + (DIRS d).2) % HEIGHT)

/-- Collision test of server.py lines 186-193: does the cell lie on the
body of any snake whose alive flag is currently set? -/
def hits_any (snakes : List (Nat × Snake)) (p : Pos) : Bool :=
  snakes.any (fun q => q.2.alive && decide (p ∈ q.2.body))

/-- Tail rule, server.py lines 209-213: consume one unit of pending
growth, otherwise drop the last body segment. -/
def tail_rule (s : Snake) : Snake :=
  if s.grow > 0 then { s with grow := s.grow - 1 }
  else { s with body := s.body.dropLast }

/-- State threaded through the `game_tick` loop: the live snake map and
food set, the remaining random draws, and the accumulated `to_kill`. -/
structure TickState where
  snakes : List (Nat × Snake)
  food : List Pos
  cands : List (Nat × Nat)
  to_kill : List Nat
deriving DecidableEq

/-- Steps 4-6 of the `game_tick` loop body (server.py lines 200-213)
for a surviving snake: prepend the new head (an in-place mutation of
the stored object, so visible to `spawn_food`), then the food check
with its respawn, then the tail rule.  `none` embeds the
non-terminating `spawn_food` search. -/
def move_snake (st : TickState) (pid : Nat) (s : Snake) (head : Pos) :
    Option TickState :=
  let s1 : Snake := { s with body := head :: s.body }
  let snakes1 := setSnake pid s1 st.snakes
  if head ∈ st.food then
    let food1 := st.food.erase head
    let s2 : Snake := { s1 with grow := s1.grow + 3 }
    let snakes2 := setSnake pid s2 snakes1
    match spawn_food snakes2 food1 st.cands with
    | none => none
    | some (p, rest) =>
      some { snakes := setSnake pid (tail_rule s2) snakes2,
             food := food1 ++ [p], cands := rest, to_kill := st.to_kill }
  else
    some { st with snakes := setSnake pid (tail_rule s1) snakes1 }

/-- One iteration of the `game_tick` loop (server.py lines 171-213) for
the snake at key `pid`, acting on the current threaded state: skip
missing or dead entries, compute the wrapped candidate head, test it
against the snakes' current bodies, and either die (steps on) or move.
The empty-body `none` embeds the impossible `body[0]` IndexError. -/
def tick_snake (st : TickState) (pid : Nat) : Option TickState :=
  match lookupSnake pid st.snakes with
  | none => some st
  | some s =>
    if s.alive = false then some st
    else
      match s.body with
      | [] => none
      | h :: _ =>
        let head := next_head s.dir h
        if hits_any st.snakes head then
          some { st with snakes := setSnake pid { s with alive := false } st.snakes,
                         to_kill := st.to_kill ++ [pid] }
        else move_snake st pid s head

/-- Left fold of `tick_snake` over a list of keys. -/
def tick_fold (pids : List Nat) (st : TickState) : Option TickState :=
  pids.foldl (fun acc p => acc.bind (fun st1 => tick_snake st1 p)) (some st)

/-- The function `game_tick`, server.py lines 165-213: fold the
per-snake step over the snapshot `list(self.snakes.items())` of keys in
insertion order, then read back the mutated maps and the `to_kill`
list.  The death-notification loop (lines 215-222) is `death_notes`. -/
def game_tick (w : World) (cands : List (Nat × Nat)) :
    Option (World × List Nat) :=
  match tick_fold (w.snakes.map Prod.fst) ⟨w.snakes, w.food, cands, []⟩ with
  | none => none
  | some st => some ({ w with snakes := st.snakes, food := st.food }, st.to_kill)

/-- A queued death notification: the id whose registered transport the
bytes are written to, and the `pid` field of the JSON payload
`{'type':'dead','pid':pid}`. -/
structure DeathNote where
  target : Nat
  payload_pid : Nat
deriving DecidableEq

/-- Death-notification loop, server.py lines 215-222: one write attempt
per `to_kill` entry whose id still has a registered writer; a raising
write is swallowed by the bare `except` and changes nothing, so the
notes are the only output. -/
def death_notes (to_kill : List Nat) (writers : List Nat) : List DeathNote :=
  to_kill.foldl (fun acc pid => if pid ∈ writers then acc ++ [⟨pid, pid⟩] else acc) []

/-- A decoded JSON value, the possible results of `json.loads` on one
input line (numbers collapsed to integers; no property depends on
floats). -/
inductive JVal
  | jnull
  | jbool (b : Bool)
  | jnum (n : Int)
  | jstr (s : String)
  | jarr (elems : List JVal)
  | jobj (fields : List (String × JVal))

/-- Python equality of a fetched field with the string `'cmd'`: true
exactly when the value is that string. -/
def is_cmd : Option JVal → Bool
  | some (.jstr t) => t == "cmd"
  | _ => false

/-- Python `dict.get` on the decoded object's fields (a decoded JSON
object has unique keys, later duplicates in the text having won). -/
def jget : List (String × JVal) → String → Option JVal
  | [], _ => none
  | (k, v) :: rest, key => if k = key then some v else jget rest key

/-- Whether a decoded value is hashable, i.e. usable on the left of
Python's `in` on a dict: lists and dicts are not. -/
def hashable : JVal → Bool
  | .jarr _ => false
  | .jobj _ => false
  | _ => true

/-- Which strings are keys of `DIRS` (`if d in DIRS`, line 121). -/
def dir_of_string (s : String) : Option Dir :=
  if s = "U" then some .U
  else if s = "D" then some .D
  else if s = "L" then some .L
  else if s = "R" then some .R
  else none

/-- One input line as seen after `readline`: either bytes on which
`json.loads` raises (caught at line 116, garbage), or a decoded value. -/
inductive LineMsg
  | garbage
  | val (v : JVal)

/-- The locked command-application block, server.py lines 122-134:
look up the session's snake; ignore when absent or dead; below body
length 2 set the facing unconditionally; otherwise set it exactly when
`DIRS[d]` differs from head minus neck (`body[0] - body[1]`). -/
def apply_cmd (w : World) (pid : Nat) (d : Dir) : World :=
  match lookupSnake pid w.snakes with
  | none => w
  | some s =>
    if s.alive = false then w
    else if s.body.length < 2 then
      { w with snakes := setSnake pid { s with dir := d } w.snakes }
    else
      match s.body with
      | hp :: np :: _ =>
        if (hp.1 - np.1, hp.2 - np.2) ≠ DIRS d then
          { w with snakes := setSnake pid { s with dir := d } w.snakes }
        else w
      | _ => w

/-- One iteration of the `handle_client` read loop, server.py lines
113-134, for an already-read line.  `some w1` means the loop continues
with the world in state `w1`; `none` means an uncaught exception
escapes the loop: `msg.get` on a decoded non-object (AttributeError),
or `d in DIRS` with an unhashable `dir` value (TypeError). -/
def handle_line (w : World) (pid : Nat) : LineMsg → Option World
  | .garbage => some w
  | .val v =>
    match v with
    | .jobj fields =>
      if is_cmd (jget fields "type") then
        match jget fields "dir" with
        | none => some w
        | some dv =>
          if hashable dv = false then none
          else
            match dv with
            | .jstr k =>
              match dir_of_string k with
              | some d => some (apply_cmd w pid d)
              | none => some w
            | _ => some w
      else some w
    | _ => none

/-- The `finally` cleanup block of `handle_client`, server.py lines
138-146: mark the session's snake dead if still registered and remove
the writer registration. -/
def session_cleanup (w : World) (pid : Nat) : World :=
  { w with
    snakes :=
      match lookupSnake pid w.snakes with
      | some s => setSnake pid { s with alive := false } w.snakes
      | none => w.snakes,
    writers := w.writers.erase pid }

/-- Result of feeding one line to a session: the loop either keeps
running with a new world, or the exception path runs the cleanup and
the session is gone. -/
inductive SessionOutcome
  | running (w : World)
  | crashed (w : World)
deriving DecidableEq

/-- Feed one line to the session of `pid`: on an uncaught exception the
read loop exits through `finally` and the cleanup runs. -/
def session_step (w : World) (pid : Nat) (line : LineMsg) : SessionOutcome :=
  match handle_line w pid line with
  | some w1 => .running w1
  | none => .crashed (session_cleanup w pid)

/-- The world carried by either session outcome. -/
def outcome_world : SessionOutcome → World
  | .running w => w
  | .crashed w => w

/-- Connection acceptance, server.py lines 88-103: allocate the next
id, create a length-1 snake at the drawn cell with the drawn direction
(no screening against existing snakes), and register snake and writer.
The raw seeds model `random.randrange`. -/
def accept_client (w : World) (sx sy : Nat) (d : Dir) : World × Nat :=
  let pid := w.next_pid
  let s : Snake := ⟨pid, [((sx : Int) % WIDTH, (sy : Int) % HEIGHT)], d, 0, true⟩
  ({ snakes := w.snakes ++ [(pid, s)],
     writers := w.writers ++ [pid],
     food := w.food,
     next_pid := pid + 1 }, pid)

/-- Python list indexing for `rows[i]` on a list of length `n`: a
negative index wraps once, anything still out of range raises. -/
def py_idx (n : Nat) (i : Int) : Option Nat :=
  let j := if i < 0 then i + n else i
  if 0 ≤ j ∧ j < n then some j.toNat else none

/-- The assignment `rows[y][x] = c`; `none` embeds an IndexError. -/
def py_set2 (rows : List (List Char)) (y x : Int) (c : Char) :
    Option (List (List Char)) :=
  match py_idx rows.length y with
  | none => none
  | some yi =>
    match rows.get? yi with
    | none => none
    | some row =>
      match py_idx row.length x with
      | none => none
      | some xi => some (rows.set yi (row.set xi c))

/-- The character `str(pid % 10)`. -/
def digit_char (pid : Nat) : Char := Char.ofNat (48 + pid % 10)

/-- Food-drawing loop of `broadcast_frame`, server.py lines 232-233. -/
def draw_food (rows : List (List Char)) : List Pos → Option (List (List Char))
  | [] => some rows
  | p :: rest =>
    match py_set2 rows p.2 p.1 '*' with
    | none => none
    | some rows1 => draw_food rows1 rest

/-- Body-drawing loop for one snake, server.py lines 240-242: index 0
is the head, drawn as `ch.upper()` (`Char.toUpper`; on a decimal digit
this is the same character). -/
def draw_body (ch : Char) (i : Nat) (rows : List (List Char)) :
    List Pos → Option (List (List Char))
  | [] => some rows
  | p :: rest =>
    match py_set2 rows p.2 p.1 (if i > 0 then ch else ch.toUpper) with
    | none => none
    | some rows1 => draw_body ch (i + 1) rows1 rest

/-- Snake-drawing loop of `broadcast_frame`, server.py lines 236-242:
dead snakes are skipped. -/
def draw_snakes (rows : List (List Char)) :
    List (Nat × Snake) → Option (List (List Char))
  | [] => some rows
  | (pid, s) :: rest =>
    if s.alive = false then draw_snakes rows rest
    else
      match draw_body (digit_char pid) 0 rows s.body with
      | none => none
      | some rows1 => draw_snakes rows1 rest

/-- Grid rendering of `broadcast_frame`, server.py lines 229-242. -/
def render_rows (w : World) : Option (List (List Char)) :=
  match draw_food (List.replicate HEIGHT.toNat (List.replicate WIDTH.toNat '.')) w.food with
  | none => none
  | some rows1 => draw_snakes rows1 w.snakes

/-- The frame message `{'type':'frame','w':..,'h':..,'rows':..}`. -/
structure FrameMsg where
  w : Int
  h : Int
  rows : List String
deriving DecidableEq

/-- The function `broadcast_frame`, server.py lines 224-262: render the
grid, serialize once, attempt the identical bytes on every registered
writer in order (collecting the ids whose write or drain raised), and
only after the pass delete the collected ids from the writer map.
Returns the new world and the attempted writes in order. -/
def broadcast_frame (wd : World) (fails : Nat → Bool) :
    Option (World × List (Nat × FrameMsg)) :=
  match render_rows wd with
  | none => none
  | some rs =>
    let data : FrameMsg := ⟨WIDTH, HEIGHT, rs.map (fun r => String.mk r)⟩
    let pass := wd.writers.foldl
      (fun (acc : List (Nat × FrameMsg) × List Nat) pid =>
        (acc.1 ++ [(pid, data)], if fails pid then acc.2 ++ [pid] else acc.2))
      ([], [])
    some ({ wd with writers := pass.2.foldl (fun ws pid => ws.erase pid) wd.writers },
          pass.1)

/-- Modelled from the spec, for comparison with `apply_cmd`: the
direction-change rule as the spec words it — below body length 2 accept
any requested direction unconditionally; otherwise accept `d` exactly
when `DIRS[d]` differs from the neck→head vector `body[0] - body[1]`,
leaving the facing unchanged when rejected. -/
def spec_new_dir (s : Snake) (d : Dir) : Dir :=
  if s.body.length < 2 then d
  else
    match s.body with
    | hp :: np :: _ => if (hp.1 - np.1, hp.2 - np.2) ≠ DIRS d then d else s.dir
    | _ => d

/-- Positions lie on the grid. -/
def in_bounds (p : Pos) : Prop :=
  0 ≤ p.1 ∧ p.1 < WIDTH ∧ 0 ≤ p.2 ∧ p.2 < HEIGHT

instance (p : Pos) : Decidable (in_bounds p) := by
  unfold in_bounds
  infer_instance

/-- Well-formedness of one snake: non-empty body, all segments on the
grid, non-negative pending growth.  (The facing is a `DIRS` key by the
type `Dir` of the embedding.) -/
def SnakeOK (s : Snake) : Prop :=
  s.body ≠ [] ∧ (∀ p ∈ s.body, in_bounds p) ∧ 0 ≤ s.grow

instance (s : Snake) : Decidable (SnakeOK s) := by
  unfold SnakeOK
  infer_instance

/-- The state invariant of the server: well-formed snakes with distinct
keys below the id counter, in-bounds food, and a duplicate-free writer
map with keys below the id counter. -/
def WorldInv (w : World) : Prop :=
  (∀ e ∈ w.snakes, SnakeOK e.2 ∧ e.1 < w.next_pid) ∧
  (w.snakes.map Prod.fst).Nodup ∧
  (∀ p ∈ w.food, in_bounds p) ∧
  w.writers.Nodup ∧ (∀ q ∈ w.writers, q < w.next_pid)

instance (w : World) : Decidable (WorldInv w) := by
  unfold WorldInv
  infer_instance

/-- The part of the invariant carried through the tick fold (the id
counter and writer map are untouched by the physics step). -/
def TickInv (st : TickState) (npid : Nat) : Prop :=
  (∀ e ∈ st.snakes, SnakeOK e.2 ∧ e.1 < npid) ∧
  (st.snakes.map Prod.fst).Nodup ∧
  (∀ p ∈ st.food, in_bounds p)

/-
  Concrete states used by the claim-level counterexamples and
  witnesses.
-/

/-- One alive snake with head (1,0) and neck (0,0): the neck→head
vector is (1,0), whose exact inverse is `DIRS L = (-1,0)`. -/
def reversal_world : World :=
  ⟨[(1, ⟨1, [(1, 0), (0, 0)], .R, 0, true⟩)], [1], [], 2⟩

/-- Two alive snakes one step away from the shared empty cell (1,0). -/
def sim_world : World :=
  ⟨[(1, ⟨1, [(0, 0)], .R, 0, true⟩), (2, ⟨2, [(2, 0)], .L, 0, true⟩)], [], [], 3⟩

/-- One alive length-1 snake with a registered writer. -/
def c3_world : World := ⟨[(1, ⟨1, [(0, 0)], .R, 0, true⟩)], [1], [], 2⟩

/-- Snake with head (1,0), neck (0,0), used for the command rule. -/
def cmd_snake : Snake := ⟨1, [(1, 0), (0, 0)], .R, 0, true⟩

/-- World holding `cmd_snake`. -/
def cmd_world : World := ⟨[(1, cmd_snake)], [1], [], 2⟩

/-- A snake forming a 2×2 loop, heading D into its own tail (0,1). -/
def tail_snake : Snake := ⟨1, [(0, 0), (1, 0), (1, 1), (0, 1)], .D, 0, true⟩

/-- World holding `tail_snake` with a registered writer. -/
def tail_world : World := ⟨[(1, tail_snake)], [1], [], 2⟩

/-- The state of `tail_world` after one tick: same body, alive flag
cleared. -/
def tail_world_after : World :=
  ⟨[(1, ⟨1, [(0, 0), (1, 0), (1, 1), (0, 1)], .D, 0, false⟩)], [1], [], 2⟩

/-- A dead snake occupying (0,0). -/
def dead_snake : Snake := ⟨1, [(0, 0)], .R, 0, false⟩

/-- A snake map holding only `dead_snake`. -/
def dead_snake_map : List (Nat × Snake) := [(1, dead_snake)]

/-- A world with the dead snake at (0,0) and one alive snake at (5,5). -/
def mixed_world : World :=
  ⟨[(1, dead_snake), (2, ⟨2, [(5, 5)], .D, 0, true⟩)], [1, 2], [], 3⟩

/-- `mixed_world` after one tick: the dead snake untouched, the alive
snake moved to (5,6). -/
def mixed_world_after : World :=
  ⟨[(1, dead_snake), (2, ⟨2, [(5, 6)], .D, 0, true⟩)], [1, 2], [], 3⟩

/-- Tick state of `tail_world` at the start of its tick. -/
def tail_state : TickState := ⟨[(1, tail_snake)], [], [], []⟩

/-- A two-snake tick state: snake 1 at (0,0) heading R onto the food
cell (1,0) with no pending growth, snake 2 at (9,9) heading D with
five growth units pending. -/
def eat_state : TickState :=
  ⟨[(1, ⟨1, [(0, 0)], .R, 0, true⟩), (2, ⟨2, [(9, 9)], .D, 5, true⟩)],
   [(1, 0)], [(5, 5)], []⟩

/-- `eat_state` after snake 1's step: it ate, gained the head segment,
and carries two growth units; the replacement food sits at (5,5). -/
def eat_state_a : TickState :=
  ⟨[(1, ⟨1, [(1, 0), (0, 0)], .R, 2, true⟩), (2, ⟨2, [(9, 9)], .D, 5, true⟩)],
   [(5, 5)], [], []⟩

/-- `eat_state` after snake 2's step instead: no food on (9,10), one
growth unit consumed, body one segment longer. -/
def eat_state_b : TickState :=
  ⟨[(1, ⟨1, [(0, 0)], .R, 0, true⟩), (2, ⟨2, [(9, 10), (9, 9)], .D, 4, true⟩)],
   [(1, 0)], [(5, 5)], []⟩

/-- A two-snake tick state whose snake 1 has no pending growth and no
food ahead. -/
def steady_state : TickState :=
  ⟨[(1, ⟨1, [(3, 3)], .R, 0, true⟩), (2, ⟨2, [(9, 9)], .D, 0, true⟩)],
   [(1, 0)], [], []⟩

/-- `steady_state` after snake 1's step: moved, length unchanged. -/
def steady_state_a : TickState :=
  ⟨[(1, ⟨1, [(4, 3)], .R, 0, true⟩), (2, ⟨2, [(9, 9)], .D, 0, true⟩)],
   [(1, 0)], [], []⟩

/-- The frame rendered from a world with no food and no alive snakes. -/
def bc_frame : FrameMsg :=
  ⟨WIDTH, HEIGHT,
   (List.replicate HEIGHT.toNat (List.replicate WIDTH.toNat '.')).map
     (fun r => String.mk r)⟩

/-- A world with three registered writers and no snakes. -/
def bc_world : World := ⟨[], [1, 2, 3], [], 4⟩

/-- Write-failure oracle failing exactly writer 2. -/
def bc_fails : Nat → Bool := fun p => p == 2

/-- A small invariant-satisfying world. -/
def inv_world : World := ⟨[(1, ⟨1, [(0, 0)], .R, 0, true⟩)], [1], [(2, 2)], 2⟩

/-
  Association-list lemmas for the snake map.
-/

theorem lookupSnake_mem : ∀ {l : List (Nat × Snake)} {p : Nat} {s : Snake},
    lookupSnake p l = some s → (p, s) ∈ l := by
  intro l
  induction l with
  | nil => intro p s h; simp [lookupSnake] at h
  | cons e rest ih =>
    intro p s h
    obtain ⟨q, t⟩ := e
    by_cases hq : q = p
    · subst hq
      simp [lookupSnake] at h
      subst h
      exact List.mem_cons_self _ _
    · simp [lookupSnake, hq] at h
      exact List.mem_cons_of_mem _ (ih h)

theorem lookupSnake_mem_keys {l : List (Nat × Snake)} {p : Nat} {s : Snake}
    (h : lookupSnake p l = some s) : p ∈ l.map Prod.fst := by
  have := lookupSnake_mem h
  exact List.mem_map.mpr ⟨(p, s), this, rfl⟩

theorem lookupSnake_set_ne : ∀ {l : List (Nat × Snake)} {p q : Nat} {s : Snake},
    q ≠ p → lookupSnake q (setSnake p s l) = lookupSnake q l := by
  intro l
  induction l with
  | nil => intro p q s _; simp [setSnake]
  | cons e rest ih =>
    intro p q s hne
    obtain ⟨k, t⟩ := e
    by_cases hk : k = p
    · subst hk
      have hkq : ¬ k = q := fun h => hne h.symm
      simp [setSnake, lookupSnake, hkq]
    · simp [setSnake, hk, lookupSnake]
      by_cases hkq : k = q
      · simp [hkq]
      · simp [hkq]
        exact ih hne

theorem lookupSnake_set_self : ∀ {l : List (Nat × Snake)} {p : Nat} {s t : Snake},
    lookupSnake p l = some t → lookupSnake p (setSnake p s l) = some s := by
  intro l
  induction l with
  | nil => intro p s t h; simp [lookupSnake] at h
  | cons e rest ih =>
    intro p s t h
    obtain ⟨k, u⟩ := e
    by_cases hk : k = p
    · subst hk
      simp [setSnake, lookupSnake]
    · simp [setSnake, hk, lookupSnake]
      simp [lookupSnake, hk] at h
      exact ih h

theorem keys_setSnake : ∀ {l : List (Nat × Snake)} (p : Nat) (s : Snake),
    (setSnake p s l).map Prod.fst = l.map Prod.fst := by
  intro l
  induction l with
  | nil => intro p s; simp [setSnake]
  | cons e rest ih =>
    intro p s
    obtain ⟨k, u⟩ := e
    by_cases hk : k = p
    · subst hk; simp [setSnake]
    · simp [setSnake, hk]
      exact ih p s

theorem mem_setSnake : ∀ {l : List (Nat × Snake)} {p : Nat} {s : Snake} {e : Nat × Snake},
    e ∈ setSnake p s l → e ∈ l ∨ e = (p, s) := by
  intro l
  induction l with
  | nil => intro p s e h; simp [setSnake] at h
  | cons hd rest ih =>
    intro p s e h
    obtain ⟨k, u⟩ := hd
    by_cases hk : k = p
    · subst hk
      simp [setSnake] at h
      rcases h with h | h
      · right; simp [h]
      · left; exact List.mem_cons_of_mem _ h
    · simp [setSnake, hk] at h
      rcases h with h | h
      · left; simp [h]
      · rcases ih h with h1 | h1
        · left; exact List.mem_cons_of_mem _ h1
        · right; exact h1

/-
  Per-step lemmas about `move_snake` and `tick_snake`.
-/

theorem tail_rule_alive (s : Snake) : (tail_rule s).alive = s.alive := by
  unfold tail_rule
  split <;> rfl

theorem move_snake_to_kill {st st1 : TickState} {pid : Nat} {s : Snake} {head : Pos}
    (h : move_snake st pid s head = some st1) : st1.to_kill = st.to_kill := by
  simp only [move_snake] at h
  split at h
  · split at h
    · simp at h
    · injection h with h
      subst h
      rfl
  · injection h with h
    subst h
    rfl

theorem move_snake_lookup_ne {st st1 : TickState} {pid q : Nat} {s : Snake} {head : Pos}
    (h : move_snake st pid s head = some st1) (hne : q ≠ pid) :
    lookupSnake q st1.snakes = lookupSnake q st.snakes := by
  simp only [move_snake] at h
  split at h
  · split at h
    · simp at h
    · injection h with h
      subst h
      dsimp only
      rw [lookupSnake_set_ne hne, lookupSnake_set_ne hne, lookupSnake_set_ne hne]
  · injection h with h
    subst h
    dsimp only
    rw [lookupSnake_set_ne hne, lookupSnake_set_ne hne]

theorem move_snake_lookup_self {st st1 : TickState} {pid : Nat} {s : Snake} {head : Pos}
    (hl : lookupSnake pid st.snakes = some s)
    (h : move_snake st pid s head = some st1) :
    ∃ s', lookupSnake pid st1.snakes = some s' ∧ s'.alive = s.alive := by
  simp only [move_snake] at h
  split at h
  · split at h
    · simp at h
    · injection h with h
      subst h
      dsimp only
      have h1 := lookupSnake_set_self (s := { s with body := head :: s.body }) hl
      have h2 := lookupSnake_set_self
        (s := { s with body := head :: s.body, grow := s.grow + 3 }) h1
      refine ⟨_, lookupSnake_set_self h2, ?_⟩
      rw [tail_rule_alive]
  · injection h with h
    subst h
    dsimp only
    have h1 := lookupSnake_set_self (s := { s with body := head :: s.body }) hl
    refine ⟨_, lookupSnake_set_self h1, ?_⟩
    rw [tail_rule_alive]

theorem move_snake_keys {st st1 : TickState} {pid : Nat} {s : Snake} {head : Pos}
    (h : move_snake st pid s head = some st1) :
    st1.snakes.map Prod.fst = st.snakes.map Prod.fst := by
  simp only [move_snake] at h
  split at h
  · split at h
    · simp at h
    · injection h with h
      subst h
      dsimp only
      rw [keys_setSnake, keys_setSnake, keys_setSnake]
  · injection h with h
    subst h
    dsimp only
    rw [keys_setSnake, keys_setSnake]

theorem tick_snake_none_key {st : TickState} {pid : Nat}
    (h : lookupSnake pid st.snakes = none) : tick_snake st pid = some st := by
  simp [tick_snake, h]

theorem tick_snake_dead {st : TickState} {pid : Nat} {s : Snake}
    (hl : lookupSnake pid st.snakes = some s) (ha : s.alive = false) :
    tick_snake st pid = some st := by
  simp [tick_snake, hl, ha]

theorem tick_snake_lookup_ne {st st1 : TickState} {pid q : Nat}
    (h : tick_snake st pid = some st1) (hne : q ≠ pid) :
    lookupSnake q st1.snakes = lookupSnake q st.snakes := by
  simp only [tick_snake] at h
  split at h
  · injection h with h
    subst h
    rfl
  · split at h
    · injection h with h
      subst h
      rfl
    · split at h
      · simp at h
      · split at h
        · injection h with h
          subst h
          dsimp only
          exact lookupSnake_set_ne hne
        · exact move_snake_lookup_ne h hne

theorem tick_snake_keys {st st1 : TickState} {pid : Nat}
    (h : tick_snake st pid = some st1) :
    st1.snakes.map Prod.fst = st.snakes.map Prod.fst := by
  simp only [tick_snake] at h
  split at h
  · injection h with h
    subst h
    rfl
  · split at h
    · injection h with h
      subst h
      rfl
    · split at h
      · simp at h
      · split at h
        · injection h with h
          subst h
          dsimp only
          rw [keys_setSnake]
        · exact move_snake_keys h

theorem tick_snake_cases {st st1 : TickState} {pid : Nat}
    (h : tick_snake st pid = some st1) :
    (st1 = st ∧ alive_at st.snakes pid = false)
    ∨ (∃ s hd tl, lookupSnake pid st.snakes = some s ∧ s.alive = true ∧
        s.body = hd :: tl ∧ hits_any st.snakes (next_head s.dir hd) = true ∧
        st1 = { st with snakes := setSnake pid { s with alive := false } st.snakes,
                        to_kill := st.to_kill ++ [pid] })
    ∨ (∃ s s', lookupSnake pid st.snakes = some s ∧ s.alive = true ∧
        lookupSnake pid st1.snakes = some s' ∧ s'.alive = true ∧
        st1.to_kill = st.to_kill) := by
  simp only [tick_snake] at h
  split at h
  · rename_i hl
    injection h with h
    subst h
    left
    exact ⟨rfl, by simp [alive_at, hl]⟩
  · rename_i s hl
    split at h
    · rename_i ha
      injection h with h
      subst h
      left
      exact ⟨rfl, by simp [alive_at, hl, ha]⟩
    · rename_i ha
      have ha' : s.alive = true := by
        cases hA : s.alive
        · exact absurd hA ha
        · rfl
      split at h
      · simp at h
      · rename_i hd tl hb
        split at h
        · rename_i hc
          injection h with h
          right; left
          exact ⟨s, hd, tl, hl, ha', hb, hc, h.symm⟩
        · rename_i hc
          right; right
          obtain ⟨s', hs', haeq⟩ := move_snake_lookup_self hl h
          exact ⟨s, s', hl, ha', hs', by rw [haeq, ha'], move_snake_to_kill h⟩

/-
  Lemmas about the tick fold.
-/

theorem tick_fold_nil (st : TickState) : tick_fold [] st = some st := rfl

theorem tick_fold_bind_none : ∀ (ps : List Nat),
    ps.foldl (fun acc p => acc.bind (fun st1 => tick_snake st1 p)) none = none := by
  intro ps
  induction ps with
  | nil => rfl
  | cons p ps ih =>
    rw [List.foldl_cons]
    exact ih

theorem tick_fold_cons_none {p : Nat} {st : TickState} (ps : List Nat)
    (hts : tick_snake st p = none) : tick_fold (p :: ps) st = none := by
  unfold tick_fold
  rw [List.foldl_cons]
  have : (some st).bind (fun st1 => tick_snake st1 p) = none := by
    simp [Option.bind, hts]
  rw [this]
  exact tick_fold_bind_none ps

theorem tick_fold_cons_some {p : Nat} {st st1 : TickState} (ps : List Nat)
    (hts : tick_snake st p = some st1) :
    tick_fold (p :: ps) st = tick_fold ps st1 := by
  unfold tick_fold
  rw [List.foldl_cons]
  have : (some st).bind (fun st2 => tick_snake st2 p) = some st1 := by
    simp [Option.bind, hts]
  rw [this]

theorem tick_fold_lookup_ne : ∀ {ps : List Nat} {st st' : TickState} {q : Nat},
    tick_fold ps st = some st' → q ∉ ps →
    lookupSnake q st'.snakes = lookupSnake q st.snakes := by
  intro ps
  induction ps with
  | nil =>
    intro st st' q h _
    rw [tick_fold_nil] at h
    injection h with h
    subst h
    rfl
  | cons p ps ih =>
    intro st st' q h hq
    cases hts : tick_snake st p with
    | none =>
      rw [tick_fold_cons_none ps hts] at h
      simp at h
    | some st1 =>
      rw [tick_fold_cons_some ps hts] at h
      have h1 := ih h (fun hmem => hq (List.mem_cons_of_mem _ hmem))
      rw [h1]
      exact tick_snake_lookup_ne hts (fun he => hq (he ▸ List.mem_cons_self _ _))

theorem tick_fold_dead : ∀ {ps : List Nat} {st st' : TickState} {q : Nat} {s : Snake},
    tick_fold ps st = some st' → lookupSnake q st.snakes = some s → s.alive = false →
    lookupSnake q st'.snakes = some s := by
  intro ps
  induction ps with
  | nil =>
    intro st st' q s h hl _
    rw [tick_fold_nil] at h
    injection h with h
    subst h
    exact hl
  | cons p ps ih =>
    intro st st' q s h hl ha
    by_cases hpq : p = q
    · subst hpq
      rw [tick_fold_cons_some ps (tick_snake_dead hl ha)] at h
      exact ih h hl ha
    · cases hts : tick_snake st p with
      | none =>
        rw [tick_fold_cons_none ps hts] at h
        simp at h
      | some st1 =>
        rw [tick_fold_cons_some ps hts] at h
        have hl1 : lookupSnake q st1.snakes = some s := by
          rw [tick_snake_lookup_ne hts (fun he => hpq he.symm)]
          exact hl
        exact ih h hl1 ha

theorem tick_fold_keys : ∀ {ps : List Nat} {st st' : TickState},
    tick_fold ps st = some st' →
    st'.snakes.map Prod.fst = st.snakes.map Prod.fst := by
  intro ps
  induction ps with
  | nil =>
    intro st st' h
    rw [tick_fold_nil] at h
    injection h with h
    subst h
    rfl
  | cons p ps ih =>
    intro st st' h
    cases hts : tick_snake st p with
    | none =>
      rw [tick_fold_cons_none ps hts] at h
      simp at h
    | some st1 =>
      rw [tick_fold_cons_some ps hts] at h
      rw [ih h, tick_snake_keys hts]

theorem alive_at_eq_of_lookup_eq {l1 l2 : List (Nat × Snake)} {q : Nat}
    (h : lookupSnake q l1 = lookupSnake q l2) : alive_at l1 q = alive_at l2 q := by
  unfold alive_at
  rw [h]

theorem alive_at_some {l : List (Nat × Snake)} {q : Nat} {s : Snake}
    (h : lookupSnake q l = some s) : alive_at l q = s.alive := by
  unfold alive_at
  rw [h]

theorem alive_at_none {l : List (Nat × Snake)} {q : Nat}
    (h : lookupSnake q l = none) : alive_at l q = false := by
  unfold alive_at
  rw [h]

theorem tick_fold_kill_spec : ∀ {ps : List Nat} {st st' : TickState},
    ps.Nodup → tick_fold ps st = some st' →
    ∃ killed, st'.to_kill = st.to_kill ++ killed ∧ killed.Nodup ∧
      ∀ p, p ∈ killed ↔
        p ∈ ps ∧ alive_at st.snakes p = true ∧ alive_at st'.snakes p = false := by
  intro ps
  induction ps with
  | nil =>
    intro st st' _ h
    rw [tick_fold_nil] at h
    injection h with h
    subst h
    exact ⟨[], by simp, List.nodup_nil, by simp⟩
  | cons p ps ih =>
    intro st st' hnd h
    have hp : p ∉ ps := (List.nodup_cons.mp hnd).1
    have hnd' : ps.Nodup := (List.nodup_cons.mp hnd).2
    cases hts : tick_snake st p with
    | none =>
      rw [tick_fold_cons_none ps hts] at h
      simp at h
    | some st1 =>
      rw [tick_fold_cons_some ps hts] at h
      obtain ⟨k1, hk1, hk1nd, hk1iff⟩ := ih hnd' h
      rcases tick_snake_cases hts with ⟨hst, hal⟩ |
        ⟨s, hd, tl, hl, ha, hb, hc, hst⟩ | ⟨s, s', hl, ha, hl', ha', htk⟩
      · -- the snake at p was skipped: state unchanged, p not alive before
        subst hst
        refine ⟨k1, hk1, hk1nd, ?_⟩
        intro q
        rw [hk1iff q]
        constructor
        · rintro ⟨hq1, hq2, hq3⟩
          exact ⟨List.mem_cons_of_mem _ hq1, hq2, hq3⟩
        · rintro ⟨hq1, hq2, hq3⟩
          rcases List.mem_cons.mp hq1 with rfl | hq1
          · rw [hal] at hq2
            simp at hq2
          · exact ⟨hq1, hq2, hq3⟩
      · -- the snake at p collided and was marked dead
        subst hst
        refine ⟨p :: k1, ?_, ?_, ?_⟩
        · rw [hk1]
          dsimp only
          rw [List.append_assoc]
          rfl
        · refine List.nodup_cons.mpr ⟨?_, hk1nd⟩
          intro hmem
          exact hp ((hk1iff p).mp hmem).1
        · intro q
          by_cases hq : q = p
          · subst hq
            have hlq : lookupSnake q st'.snakes =
                some { s with alive := false } := by
              rw [tick_fold_lookup_ne h hp]
              dsimp only
              exact lookupSnake_set_self hl
            refine iff_of_true (List.mem_cons_self _ _) ⟨List.mem_cons_self _ _, ?_, ?_⟩
            · rw [alive_at_some hl]
              exact ha
            · rw [alive_at_some hlq]
          · have heq : alive_at
                ({ st with snakes := setSnake p { s with alive := false } st.snakes,
                           to_kill := st.to_kill ++ [p] } : TickState).snakes q =
                alive_at st.snakes q := by
              apply alive_at_eq_of_lookup_eq
              dsimp only
              exact lookupSnake_set_ne hq
            constructor
            · intro hmem
              rcases List.mem_cons.mp hmem with rfl | hmem
              · exact absurd rfl hq
              · obtain ⟨hq1, hq2, hq3⟩ := (hk1iff q).mp hmem
                rw [heq] at hq2
                exact ⟨List.mem_cons_of_mem _ hq1, hq2, hq3⟩
            · rintro ⟨hq1, hq2, hq3⟩
              rcases List.mem_cons.mp hq1 with rfl | hq1
              · exact absurd rfl hq
              · refine List.mem_cons_of_mem _ ((hk1iff q).mpr ⟨hq1, ?_, hq3⟩)
                rw [heq]
                exact hq2
      · -- the snake at p moved and survived
        refine ⟨k1, by rw [hk1, htk], hk1nd, ?_⟩
        intro q
        by_cases hq : q = p
        · subst hq
          have hlq : lookupSnake q st'.snakes = some s' := by
            rw [tick_fold_lookup_ne h hp]
            exact hl'
          constructor
          · intro hmem
            exact absurd ((hk1iff q).mp hmem).1 hp
          · rintro ⟨_, _, hq3⟩
            rw [alive_at_some hlq, ha'] at hq3
            simp at hq3
        · rw [hk1iff q]
          have heq : alive_at st1.snakes q = alive_at st.snakes q :=
            alive_at_eq_of_lookup_eq (tick_snake_lookup_ne hts hq)
          rw [heq]
          simp [List.mem_cons, hq]

theorem tick_snake_to_kill_mono {st st1 : TickState} {pid : Nat}
    (h : tick_snake st pid = some st1) :
    ∃ ext, st1.to_kill = st.to_kill ++ ext := by
  rcases tick_snake_cases h with ⟨hst, _⟩ | ⟨s, hd, tl, _, _, _, _, hst⟩ |
    ⟨s, s', _, _, _, _, htk⟩
  · exact ⟨[], by rw [hst]; simp⟩
  · exact ⟨[pid], by rw [hst]⟩
  · exact ⟨[], by rw [htk]; simp⟩

theorem tick_fold_to_kill_mono : ∀ {ps : List Nat} {st st' : TickState},
    tick_fold ps st = some st' → ∃ ext, st'.to_kill = st.to_kill ++ ext := by
  intro ps
  induction ps with
  | nil =>
    intro st st' h
    rw [tick_fold_nil] at h
    injection h with h
    subst h
    exact ⟨[], by simp⟩
  | cons p ps ih =>
    intro st st' h
    cases hts : tick_snake st p with
    | none =>
      rw [tick_fold_cons_none ps hts] at h
      simp at h
    | some st1 =>
      rw [tick_fold_cons_some ps hts] at h
      obtain ⟨e1, he1⟩ := tick_snake_to_kill_mono hts
      obtain ⟨e2, he2⟩ := ih h
      exact ⟨e1 ++ e2, by rw [he2, he1, List.append_assoc]⟩

theorem hits_any_of_mem {l : List (Nat × Snake)} {q : Nat} {s : Snake} {x : Pos}
    (hm : (q, s) ∈ l) (ha : s.alive = true) (hx : x ∈ s.body) :
    hits_any l x = true := by
  unfold hits_any
  rw [List.any_eq_true]
  exact ⟨(q, s), hm, by simp [ha, hx]⟩

theorem mem_of_getLast?_eq : ∀ {l : List Pos} {a : Pos},
    l.getLast? = some a → a ∈ l := by
  intro l
  induction l with
  | nil => intro a h; simp [List.getLast?] at h
  | cons x xs ih =>
    intro a h
    cases xs with
    | nil =>
      simp [List.getLast?] at h
      simp [h]
    | cons y ys =>
      rw [List.getLast?_cons_cons] at h
      exact List.mem_cons_of_mem _ (ih h)

/-- After the collision branch fires for `p`, the rest of the tick can
not resurrect it: its entry stays the dead copy and `p` stays queued. -/
theorem tick_fold_self_hit : ∀ {ps : List Nat} {st st' : TickState}
    {p : Nat} {s : Snake} {hd : Pos} {tl : List Pos},
    tick_fold ps st = some st' → p ∈ ps →
    lookupSnake p st.snakes = some s → s.alive = true → s.body = hd :: tl →
    next_head s.dir hd ∈ s.body →
    alive_at st'.snakes p = false ∧ p ∈ st'.to_kill := by
  intro ps
  induction ps with
  | nil =>
    intro st st' p s hd tl _ hmem _ _ _ _
    simp at hmem
  | cons q ps ih =>
    intro st st' p s hd tl h hmem hl ha hb hhit
    by_cases hq : q = p
    · subst hq
      have hcol : hits_any st.snakes (next_head s.dir hd) = true :=
        hits_any_of_mem (lookupSnake_mem hl) ha hhit
      have hts : tick_snake st q =
          some { st with snakes := setSnake q { s with alive := false } st.snakes,
                         to_kill := st.to_kill ++ [q] } := by
        simp [tick_snake, hl, ha, hb, hcol]
      rw [tick_fold_cons_some ps hts] at h
      have hdead : lookupSnake q
          (setSnake q { s with alive := false } st.snakes) =
          some { s with alive := false } := lookupSnake_set_self hl
      constructor
      · have := tick_fold_dead h hdead rfl
        rw [alive_at_some this]
      · obtain ⟨ext, hext⟩ := tick_fold_to_kill_mono h
        rw [hext]
        dsimp only
        rw [List.append_assoc]
        exact List.mem_append_right _ (List.mem_append_left _ (List.mem_singleton.mpr rfl))
    · cases hts : tick_snake st q with
      | none =>
        rw [tick_fold_cons_none ps hts] at h
        simp at h
      | some st1 =>
        rw [tick_fold_cons_some ps hts] at h
        have hl1 : lookupSnake p st1.snakes = some s := by
          rw [tick_snake_lookup_ne hts (fun he => hq he.symm)]
          exact hl
        have hmem' : p ∈ ps := by
          rcases List.mem_cons.mp hmem with he | he
          · exact absurd he.symm hq
          · exact he
        exact ih h hmem' hl1 ha hb hhit

theorem setSnake_self_id : ∀ {l : List (Nat × Snake)} {p : Nat} {s : Snake},
    lookupSnake p l = some s → setSnake p s l = l := by
  intro l
  induction l with
  | nil => intro p s h; simp [lookupSnake] at h
  | cons e rest ih =>
    intro p s h
    obtain ⟨k, t⟩ := e
    by_cases hk : k = p
    · subst hk
      simp [lookupSnake] at h
      simp [setSnake, h]
    · simp [lookupSnake, hk] at h
      simp [setSnake, hk]
      exact ih h

theorem game_tick_elim {w : World} {cands : List (Nat × Nat)} {w' : World}
    {tk : List Nat} (h : game_tick w cands = some (w', tk)) :
    ∃ st', tick_fold (w.snakes.map Prod.fst) ⟨w.snakes, w.food, cands, []⟩ = some st' ∧
      w'.snakes = st'.snakes ∧ w'.food = st'.food ∧ w'.writers = w.writers ∧
      w'.next_pid = w.next_pid ∧ tk = st'.to_kill := by
  unfold game_tick at h
  cases hf : tick_fold (w.snakes.map Prod.fst) ⟨w.snakes, w.food, cands, []⟩ with
  | none =>
    rw [hf] at h
    simp at h
  | some st' =>
    rw [hf] at h
    simp only [Option.some.injEq, Prod.mk.injEq] at h
    obtain ⟨hw, htk⟩ := h
    subst hw
    exact ⟨st', rfl, rfl, rfl, rfl, rfl, htk.symm⟩

/-
  Claim-level theorems.
-/

/-- Claim C1 (code-bug evidence): for the snake with head (1,0) and
neck (0,0) the neck→head vector is (1,0), and L is the direction whose
movement vector (-1,0) is its exact inverse; yet processing the command
message requesting L sets the facing to L.  The guard at server.py
line 133 compares `DIRS[d]` with head minus neck instead of neck minus
head, contradicting its own comments (lines 125-132): the claimed
invariant is the intent, the code a slip. -/
theorem thm_C1 :
    DIRS Dir.L = (-((1 : Int) - 0), -((0 : Int) - 0)) ∧
    handle_line reversal_world 1
        (.val (.jobj [("type", .jstr "cmd"), ("dir", .jstr "L")])) =
      some { snakes := [(1, ⟨1, [(1, 0), (0, 0)], Dir.L, 0, true⟩)],
             writers := [1], food := [], next_pid := 2 } := by
  decide

/-- Claim C2 counterexample: both snakes' candidate heads are the
pre-tick-empty cell (1,0), so under the claimed pre-tick-snapshot
semantics neither would be flagged; yet the tick flags snake 2 as
colliding and kills it (snake 1, processed first, has already moved
into that cell). -/
theorem thm_C2_cex :
    next_head Dir.R (0, 0) = (1, 0) ∧ next_head Dir.L (2, 0) = (1, 0) ∧
    hits_any sim_world.snakes (1, 0) = false ∧
    (game_tick sim_world []).map
        (fun pr => (alive_at pr.1.snakes 1, alive_at pr.1.snakes 2, pr.2)) =
      some (true, false, [2]) := by
  decide

/-- Claim C2 (amended): collision is resolved sequentially, not against
a pre-tick snapshot: `game_tick` folds over the snakes in map order,
and an alive snake's candidate head is tested with `hits_any` against
the snake bodies as they stand when that snake is processed — with
earlier-processed snakes' moves and deaths of this same tick already
applied.  The snake dies this tick exactly when that test fires. -/
theorem thm_C2 (st : TickState) (p : Nat) (s : Snake) (hd : Pos) (tl : List Pos)
    (hl : lookupSnake p st.snakes = some s) (ha : s.alive = true)
    (hb : s.body = hd :: tl) :
    (hits_any st.snakes (next_head s.dir hd) = true →
      tick_snake st p =
        some { st with snakes := setSnake p { s with alive := false } st.snakes,
                       to_kill := st.to_kill ++ [p] })
    ∧ (hits_any st.snakes (next_head s.dir hd) = false →
        ∀ st1, tick_snake st p = some st1 →
          alive_at st1.snakes p = true ∧ st1.to_kill = st.to_kill) := by
  constructor
  · intro hc
    simp [tick_snake, hl, ha, hb, hc]
  · intro hc st1 hts
    rcases tick_snake_cases hts with ⟨hst, hal⟩ |
      ⟨s2, hd2, tl2, hl2, ha2, hb2, hc2, _⟩ | ⟨s2, s', hl2, _, hl', ha', htk⟩
    · rw [alive_at_some hl, ha] at hal
      simp at hal
    · rw [hl] at hl2
      injection hl2 with hl2
      subst hl2
      rw [hb] at hb2
      injection hb2 with hb2a hb2b
      subst hb2a
      rw [hc] at hc2
      simp at hc2
    · constructor
      · rw [alive_at_some hl']
        exact ha'
      · exact htk

/-- Witness for the amended C2 at a concrete state: the loop snake is
alive, its candidate head hits a current body, and the step returns
exactly the kill outcome. -/
theorem thm_C2_witness :
    tick_snake tail_state 1 =
      some { tail_state with
             snakes := setSnake 1 { tail_snake with alive := false } tail_state.snakes,
             to_kill := tail_state.to_kill ++ [1] } :=
  (thm_C2 tail_state 1 tail_snake (0, 0) [(1, 0), (1, 1), (0, 1)]
    (by decide) (by decide) (by decide)).1 (by decide)

/-- Claim C3 counterexample: the input line "42" decodes successfully
to a non-object value; `msg.get` then raises an uncaught AttributeError,
the read loop exits through the cleanup block, the snake is marked dead
and the writer deregistered — not a silent discard that leaves the
connection open and the world unchanged. -/
theorem thm_C3_cex :
    handle_line c3_world 1 (.val (.jnum 42)) = none ∧
    session_step c3_world 1 (.val (.jnum 42)) =
      .crashed { snakes := [(1, ⟨1, [(0, 0)], Dir.R, 0, false⟩)],
                 writers := [], food := [], next_pid := 2 } ∧
    session_step c3_world 1 (.val (.jnum 42)) ≠ .running c3_world := by
  decide

/-- Claim C4: command application implements the spec's rule exactly:
for an alive snake, the world is unchanged except that the snake's
facing becomes `spec_new_dir s d` — the requested direction when the
body is shorter than 2, otherwise the requested direction if and only
if `DIRS[d]` differs from the neck→head vector `body[0] - body[1]`,
the old facing when rejected. -/
theorem thm_C4 (w : World) (pid : Nat) (d : Dir) (s : Snake)
    (hl : lookupSnake pid w.snakes = some s) (ha : s.alive = true) :
    apply_cmd w pid d =
      { w with snakes := setSnake pid { s with dir := spec_new_dir s d } w.snakes } := by
  obtain ⟨spid, sbody, sdir, sgrow, salive⟩ := s
  cases salive with
  | false => simp at ha
  | true =>
    simp only [apply_cmd, hl, spec_new_dir]
    rcases sbody with _ | ⟨hp, tb⟩
    · simp
    · rcases tb with _ | ⟨np, rest⟩
      · simp
      · rw [if_neg (by simp)]
        rw [if_neg (by simp), if_neg (by simp)]
        dsimp only
        by_cases hcond : (hp.1 - np.1, hp.2 - np.2) ≠ DIRS d
        · rw [if_pos hcond, if_pos hcond]
        · rw [if_neg hcond, if_neg hcond]
          rw [setSnake_self_id hl]

/-- Witness for C4 at a concrete input: the U command differs from the
neck→head vector (1,0) and is accepted. -/
theorem thm_C4_witness :
    apply_cmd cmd_world 1 Dir.U =
      { cmd_world with
        snakes := setSnake 1 { cmd_snake with dir := spec_new_dir cmd_snake Dir.U }
          cmd_world.snakes } :=
  thm_C4 cmd_world 1 Dir.U cmd_snake (by decide) (by decide)

/-- Claim C5: an alive snake whose candidate next head equals its own
current tail cell (the last body entry) is flagged by the collision
test — the soon-to-be-vacated tail still counts as occupied — and the
snake is dead and queued for notification after the tick. -/
theorem thm_C5 (w : World) (cands : List (Nat × Nat)) (pid : Nat) (s : Snake)
    (hd : Pos) (tl : List Pos) (w' : World) (tk : List Nat)
    (hl : lookupSnake pid w.snakes = some s) (ha : s.alive = true)
    (hb : s.body = hd :: tl)
    (htail : s.body.getLast? = some (next_head s.dir hd))
    (h : game_tick w cands = some (w', tk)) :
    alive_at w'.snakes pid = false ∧ pid ∈ tk := by
  obtain ⟨st', hf, hsn, _, _, _, htk⟩ := game_tick_elim h
  have hmem : pid ∈ w.snakes.map Prod.fst := lookupSnake_mem_keys hl
  have hhit : next_head s.dir hd ∈ s.body := mem_of_getLast?_eq htail
  have hres := tick_fold_self_hit hf hmem hl ha hb hhit
  rw [hsn, htk]
  exact hres

/-- Witness for C5: the loop snake heading D into its own tail (0,1)
dies in the tick. -/
theorem thm_C5_witness :
    alive_at tail_world_after.snakes 1 = false ∧ 1 ∈ [1] :=
  thm_C5 tail_world [] 1 tail_snake (0, 0) [(1, 0), (1, 1), (0, 1)]
    tail_world_after [1] (by decide) (by decide) (by decide) (by decide) (by decide)

/-- Claim C6 counterexample: the snake at (0,0) is dead, the cell (0,0)
holds neither food nor any living snake body, yet `spawn_food` rejects
the candidate (0,0) and places the food at the second candidate (1,1):
a dead snake's body still counts as occupied in the food-spawn
occupancy check (server.py line 75 scans every snake, alive or not). -/
theorem thm_C6_cex :
    dead_snake_map.filter (fun e => e.2.alive) = [] ∧
    spawn_food dead_snake_map [] [(0, 0), (1, 1)] = some ((1, 1), []) ∧
    spawn_food dead_snake_map [] [(0, 0), (1, 1)] ≠ some ((0, 0), [(1, 1)]) := by
  decide

/-- Claim C3 (amended): undecodable lines are silently discarded with
the session running and the world unchanged, as are decoded objects
without a valid command (wrong or missing type, missing dir, hashable
dir values that are not one of the four direction strings); a valid
command only applies the direction rule.  But a line decoding to a
non-object value, or a command object whose dir value is an array or
object, raises an uncaught exception: the session ends through the
cleanup block, which marks the session's snake dead and removes its
writer registration.  No reply is emitted in any case. -/
theorem thm_C3 :
    (∀ w pid, session_step w pid .garbage = .running w)
    ∧ (∀ w pid fields, is_cmd (jget fields "type") = false →
        session_step w pid (.val (.jobj fields)) = .running w)
    ∧ (∀ w pid fields, jget fields "dir" = none →
        session_step w pid (.val (.jobj fields)) = .running w)
    ∧ (∀ w pid fields dv, jget fields "dir" = some dv → hashable dv = true →
        (∀ k, dv ≠ .jstr k) → session_step w pid (.val (.jobj fields)) = .running w)
    ∧ (∀ w pid fields k, jget fields "dir" = some (.jstr k) →
        dir_of_string k = none →
        session_step w pid (.val (.jobj fields)) = .running w)
    ∧ (∀ w pid fields k dd, is_cmd (jget fields "type") = true →
        jget fields "dir" = some (.jstr k) → dir_of_string k = some dd →
        session_step w pid (.val (.jobj fields)) = .running (apply_cmd w pid dd))
    ∧ (∀ w pid v, (∀ fields, v ≠ .jobj fields) →
        session_step w pid (.val v) = .crashed (session_cleanup w pid))
    ∧ (∀ w pid fields dv, is_cmd (jget fields "type") = true →
        jget fields "dir" = some dv → hashable dv = false →
        session_step w pid (.val (.jobj fields)) = .crashed (session_cleanup w pid))
    ∧ (∀ w pid s, lookupSnake pid w.snakes = some s →
        lookupSnake pid (session_cleanup w pid).snakes = some { s with alive := false } ∧
        (session_cleanup w pid).writers = w.writers.erase pid) := by
  refine ⟨?_, ?_, ?_, ?_, ?_, ?_, ?_, ?_, ?_⟩
  · intro w pid
    rfl
  · intro w pid fields hc
    simp [session_step, handle_line, hc]
  · intro w pid fields hdir
    cases hc : is_cmd (jget fields "type") with
    | false => simp [session_step, handle_line, hc]
    | true => simp [session_step, handle_line, hc, hdir]
  · intro w pid fields dv hdir hh hk
    cases hc : is_cmd (jget fields "type") with
    | false => simp [session_step, handle_line, hc]
    | true =>
      cases dv with
      | jstr k => exact absurd rfl (hk k)
      | jarr es => simp [hashable] at hh
      | jobj fs => simp [hashable] at hh
      | jnull => simp [session_step, handle_line, hc, hdir, hashable]
      | jbool b => simp [session_step, handle_line, hc, hdir, hashable]
      | jnum n => simp [session_step, handle_line, hc, hdir, hashable]
  · intro w pid fields k hdir hds
    cases hc : is_cmd (jget fields "type") with
    | false => simp [session_step, handle_line, hc]
    | true => simp [session_step, handle_line, hc, hdir, hashable, hds]
  · intro w pid fields k dd hc hdir hds
    simp [session_step, handle_line, hc, hdir, hashable, hds]
  · intro w pid v hv
    cases v with
    | jobj fs => exact absurd rfl (hv fs)
    | jnull => rfl
    | jbool b => rfl
    | jnum n => rfl
    | jstr k => rfl
    | jarr es => rfl
  · intro w pid fields dv hc hdir hh
    cases dv with
    | jarr es => simp [session_step, handle_line, hc, hdir, hashable]
    | jobj fs => simp [session_step, handle_line, hc, hdir, hashable]
    | jnull => simp [hashable] at hh
    | jbool b => simp [hashable] at hh
    | jnum n => simp [hashable] at hh
    | jstr k => simp [hashable] at hh
  · intro w pid s hl
    constructor
    · simp only [session_cleanup, hl]
      exact lookupSnake_set_self hl
    · rfl

/-- Witness for the amended C3 at concrete inputs: a garbage line keeps
the session running on the unchanged world, while a decoded string line
crashes the session into the cleanup state. -/
theorem thm_C3_witness :
    session_step c3_world 1 .garbage = .running c3_world ∧
    session_step c3_world 1 (.val (.jstr "hi")) =
      .crashed (session_cleanup c3_world 1) :=
  ⟨thm_C3.1 c3_world 1,
   thm_C3.2.2.2.2.2.2.1 c3_world 1 (.jstr "hi")
     (fun _fields h => JVal.noConfusion h)⟩

theorem lookupSnake_append_of_some : ∀ {l1 : List (Nat × Snake)} {q : Nat} {s : Snake}
    (l2 : List (Nat × Snake)), lookupSnake q l1 = some s →
    lookupSnake q (l1 ++ l2) = some s := by
  intro l1
  induction l1 with
  | nil => intro q s l2 h; simp [lookupSnake] at h
  | cons e rest ih =>
    intro q s l2 h
    obtain ⟨k, t⟩ := e
    by_cases hk : k = q
    · subst hk
      simp [lookupSnake] at h ⊢
      exact h
    · simp [lookupSnake, hk] at h ⊢
      exact ih l2 h

theorem hits_any_filter_alive (l : List (Nat × Snake)) (x : Pos) :
    hits_any l x = hits_any (l.filter (fun e => e.2.alive)) x := by
  induction l with
  | nil => rfl
  | cons e rest ih =>
    obtain ⟨q, s⟩ := e
    cases hs : s.alive with
    | true =>
      simp only [hits_any, List.any_cons] at ih ⊢
      rw [List.filter_cons_of_pos (by simp [hs])]
      simp only [List.any_cons]
      rw [ih]
    | false =>
      simp only [hits_any, List.any_cons] at ih ⊢
      rw [List.filter_cons_of_neg (by simp [hs])]
      rw [hs]
      simp only [Bool.false_and, Bool.false_or]
      exact ih

theorem draw_snakes_filter_alive : ∀ (l : List (Nat × Snake)) (rows : List (List Char)),
    draw_snakes rows (l.filter (fun e => e.2.alive)) = draw_snakes rows l := by
  intro l
  induction l with
  | nil => intro rows; rfl
  | cons e rest ih =>
    intro rows
    obtain ⟨q, s⟩ := e
    cases hs : s.alive with
    | true =>
      rw [List.filter_cons_of_pos (by simp [hs])]
      simp only [draw_snakes, hs]
      cases hdb : draw_body (digit_char q) 0 rows s.body with
      | none => rfl
      | some rows1 => exact ih rows1
    | false =>
      rw [List.filter_cons_of_neg (by simp [hs])]
      simp only [draw_snakes, hs]
      exact ih rows

theorem render_rows_filter_alive (w : World) :
    render_rows { w with snakes := w.snakes.filter (fun e => e.2.alive) } =
      render_rows w := by
  unfold render_rows
  cases hdf : draw_food
      (List.replicate HEIGHT.toNat (List.replicate WIDTH.toNat '.')) w.food with
  | none => rfl
  | some rows1 => exact draw_snakes_filter_alive w.snakes rows1

theorem apply_cmd_shape (w : World) (pid : Nat) (dd : Dir) :
    apply_cmd w pid dd = w ∨
    ∃ t, apply_cmd w pid dd = { w with snakes := setSnake pid t w.snakes } := by
  unfold apply_cmd
  split
  · left; rfl
  · split
    · left; rfl
    · split
      · right; exact ⟨_, rfl⟩
      · split
        · split
          · right; exact ⟨_, rfl⟩
          · left; rfl
        · left; rfl

/-- Claim C6 (amended): a snake's alive flag, once false, stays false
and its entry stays in the id→snake map unchanged across ticks,
commands, accepts and broadcasts; dead snakes are invisible to the
collision test and to the rendered frame.  (The food-spawn occupancy
check, however, does still count dead bodies as occupied — the
corrected part, refuted by the counterexample.) -/
theorem thm_C6 :
    (∀ w cands w' tk q s, lookupSnake q w.snakes = some s → s.alive = false →
      game_tick w cands = some (w', tk) → lookupSnake q w'.snakes = some s)
    ∧ (∀ l x, hits_any l x = hits_any (l.filter (fun e => e.2.alive)) x)
    ∧ (∀ w, render_rows { w with snakes := w.snakes.filter (fun e => e.2.alive) } =
        render_rows w)
    ∧ (∀ w pid dd q s, lookupSnake q w.snakes = some s → s.alive = false →
        lookupSnake q (apply_cmd w pid dd).snakes = some s)
    ∧ (∀ w sx sy dd q s, lookupSnake q w.snakes = some s →
        lookupSnake q ((accept_client w sx sy dd).1).snakes = some s)
    ∧ (∀ w fails w' att, broadcast_frame w fails = some (w', att) →
        w'.snakes = w.snakes) := by
  refine ⟨?_, hits_any_filter_alive, render_rows_filter_alive, ?_, ?_, ?_⟩
  · intro w cands w' tk q s hl ha h
    obtain ⟨st', hf, hsn, _, _, _, _⟩ := game_tick_elim h
    rw [hsn]
    exact tick_fold_dead hf hl ha
  · intro w pid dd q s hl ha
    by_cases hq : q = pid
    · subst hq
      have he : apply_cmd w q dd = w := by
        unfold apply_cmd
        rw [hl]
        simp [ha]
      rw [he]
      exact hl
    · rcases apply_cmd_shape w pid dd with he | ⟨t, he⟩
      · rw [he]
        exact hl
      · rw [he]
        dsimp only
        rw [lookupSnake_set_ne hq]
        exact hl
  · intro w sx sy dd q s hl
    exact lookupSnake_append_of_some _ hl
  · intro w fails w' att h
    unfold broadcast_frame at h
    cases hr : render_rows w with
    | none =>
      rw [hr] at h
      simp at h
    | some rs =>
      rw [hr] at h
      simp only [Option.some.injEq, Prod.mk.injEq] at h
      rw [← h.1]

/-- Witness for the amended C6 at concrete states: the dead snake's
entry survives a tick unchanged, is invisible to the collision test at
its own cell and to the rendered frame, and a command addressed to it
changes nothing. -/
theorem thm_C6_witness :
    lookupSnake 1 mixed_world_after.snakes = some dead_snake ∧
    hits_any dead_snake_map (0, 0) =
      hits_any (dead_snake_map.filter (fun e => e.2.alive)) (0, 0) ∧
    lookupSnake 1 (apply_cmd mixed_world 1 Dir.L).snakes = some dead_snake :=
  ⟨thm_C6.1 mixed_world [] mixed_world_after [] 1 dead_snake
      (by decide) (by decide) (by decide),
   (thm_C6.2.1 dead_snake_map (0, 0)),
   thm_C6.2.2.2.1 mixed_world 1 Dir.L 1 dead_snake (by decide) (by decide)⟩

theorem move_snake_spec {st st1 : TickState} {pid : Nat} {s : Snake} {head : Pos}
    (hl : lookupSnake pid st.snakes = some s)
    (h : move_snake st pid s head = some st1) :
    ∃ s', lookupSnake pid st1.snakes = some s' ∧
      ((head ∈ st.food ∧
          s' = tail_rule { s with body := head :: s.body, grow := s.grow + 3 })
       ∨ (head ∉ st.food ∧ s' = tail_rule { s with body := head :: s.body })) := by
  simp only [move_snake] at h
  split at h
  · rename_i hfd
    split at h
    · simp at h
    · rename_i pr hsp
      injection h with h
      subst h
      dsimp only
      have h1 := lookupSnake_set_self (s := { s with body := head :: s.body }) hl
      have h2 := lookupSnake_set_self
        (s := { s with body := head :: s.body, grow := s.grow + 3 }) h1
      exact ⟨_, lookupSnake_set_self h2, Or.inl ⟨hfd, rfl⟩⟩
  · rename_i hfd
    injection h with h
    subst h
    dsimp only
    have h1 := lookupSnake_set_self (s := { s with body := head :: s.body }) hl
    exact ⟨_, lookupSnake_set_self h1, Or.inr ⟨hfd, rfl⟩⟩

/-- In a full tick over a world with distinct keys, every snake in the
map is handed to its step exactly once, with its entry still in its
pre-tick state at that moment, and no later step touches its entry. -/
theorem tick_fold_process : ∀ {ps : List Nat} {st st' : TickState}
    {pid : Nat} {s : Snake},
    ps.Nodup → pid ∈ ps → lookupSnake pid st.snakes = some s →
    tick_fold ps st = some st' →
    ∃ stm st1, lookupSnake pid stm.snakes = some s ∧
      tick_snake stm pid = some st1 ∧
      lookupSnake pid st'.snakes = lookupSnake pid st1.snakes := by
  intro ps
  induction ps with
  | nil =>
    intro st st' pid s _ hmem _ _
    simp at hmem
  | cons q ps ih =>
    intro st st' pid s hnd hmem hl h
    by_cases hq : q = pid
    · subst hq
      cases hts : tick_snake st q with
      | none =>
        rw [tick_fold_cons_none ps hts] at h
        simp at h
      | some st1 =>
        rw [tick_fold_cons_some ps hts] at h
        exact ⟨st, st1, hl, hts,
          tick_fold_lookup_ne h (List.nodup_cons.mp hnd).1⟩
    · cases hts : tick_snake st q with
      | none =>
        rw [tick_fold_cons_none ps hts] at h
        simp at h
      | some st1 =>
        rw [tick_fold_cons_some ps hts] at h
        have hl1 : lookupSnake pid st1.snakes = some s := by
          rw [tick_snake_lookup_ne hts (fun he => hq he.symm)]
          exact hl
        have hmem' : pid ∈ ps := by
          rcases List.mem_cons.mp hmem with he | he
          · exact absurd he.symm hq
          · exact he
        exact ih (List.nodup_cons.mp hnd).2 hmem' hl1 h

/-- Claim C7: growth bookkeeping for every alive snake, in any tick
state with any number of snakes.  When an alive snake's step does not
collide: eating adds 3 to the pending-growth counter and the same
step's tail rule consumes one unit, so the snake leaves the eating
step one segment longer with counter +2; each later food-free step
with a positive counter adds one segment and consumes one unit
(counter 2 then 1 then 0 after eating from 0 — net +3 segments, one
per tick, over the 3 ticks starting with the eating tick); a food-free
step with counter 0 leaves the length constant.  The last conjunct
lifts this to `game_tick`: in a full tick each snake's entry is
transformed by exactly one such step, applied to its pre-tick entry. -/
theorem thm_C7 :
    (∀ st pid s hd tl st1, lookupSnake pid st.snakes = some s →
      s.alive = true → s.body = hd :: tl → 0 ≤ s.grow →
      hits_any st.snakes (next_head s.dir hd) = false →
      next_head s.dir hd ∈ st.food → tick_snake st pid = some st1 →
      (lookupSnake pid st1.snakes).map
          (fun s1 => (s1.alive, s1.grow, s1.body.length)) =
        some (true, s.grow + 2, s.body.length + 1))
    ∧ (∀ st pid s hd tl st1, lookupSnake pid st.snakes = some s →
      s.alive = true → s.body = hd :: tl → 0 < s.grow →
      hits_any st.snakes (next_head s.dir hd) = false →
      next_head s.dir hd ∉ st.food → tick_snake st pid = some st1 →
      (lookupSnake pid st1.snakes).map
          (fun s1 => (s1.alive, s1.grow, s1.body.length)) =
        some (true, s.grow - 1, s.body.length + 1))
    ∧ (∀ st pid s hd tl st1, lookupSnake pid st.snakes = some s →
      s.alive = true → s.body = hd :: tl → s.grow = 0 →
      hits_any st.snakes (next_head s.dir hd) = false →
      next_head s.dir hd ∉ st.food → tick_snake st pid = some st1 →
      (lookupSnake pid st1.snakes).map
          (fun s1 => (s1.alive, s1.grow, s1.body.length)) =
        some (true, 0, s.body.length))
    ∧ (∀ w cands w' tk pid s, (w.snakes.map Prod.fst).Nodup →
      lookupSnake pid w.snakes = some s →
      game_tick w cands = some (w', tk) →
      ∃ stm st1, lookupSnake pid stm.snakes = some s ∧
        tick_snake stm pid = some st1 ∧
        lookupSnake pid w'.snakes = lookupSnake pid st1.snakes) := by
  refine ⟨?_, ?_, ?_, ?_⟩
  · intro st pid s hd tl st1 hl ha hb hg hc hf h
    have hts : tick_snake st pid =
        move_snake st pid s (next_head s.dir hd) := by
      simp [tick_snake, hl, ha, hb, hc]
    rw [hts] at h
    obtain ⟨s', hs', hcase⟩ := move_snake_spec hl h
    rcases hcase with ⟨_, hs⟩ | ⟨hnf, _⟩
    · rw [hs', hs]
      unfold tail_rule
      rw [if_pos (by dsimp only; omega)]
      simp [ha]
      omega
    · exact absurd hf hnf
  · intro st pid s hd tl st1 hl ha hb hg hc hf h
    have hts : tick_snake st pid =
        move_snake st pid s (next_head s.dir hd) := by
      simp [tick_snake, hl, ha, hb, hc]
    rw [hts] at h
    obtain ⟨s', hs', hcase⟩ := move_snake_spec hl h
    rcases hcase with ⟨hf2, _⟩ | ⟨_, hs⟩
    · exact absurd hf2 hf
    · rw [hs', hs]
      unfold tail_rule
      rw [if_pos (by exact hg)]
      simp [ha]
  · intro st pid s hd tl st1 hl ha hb hg hc hf h
    have hts : tick_snake st pid =
        move_snake st pid s (next_head s.dir hd) := by
      simp [tick_snake, hl, ha, hb, hc]
    rw [hts] at h
    obtain ⟨s', hs', hcase⟩ := move_snake_spec hl h
    rcases hcase with ⟨hf2, _⟩ | ⟨_, hs⟩
    · exact absurd hf2 hf
    · rw [hs', hs]
      unfold tail_rule
      rw [if_neg (by rw [hg]; norm_num)]
      simp [ha, hb, hg, List.length_dropLast]
  · intro w cands w' tk pid s hnd hl h
    obtain ⟨st', hfold, hsn, _, _, _, _⟩ := game_tick_elim h
    have hmem : pid ∈ w.snakes.map Prod.fst := lookupSnake_mem_keys hl
    obtain ⟨stm, st1, h1, h2, h3⟩ := tick_fold_process hnd hmem hl hfold
    refine ⟨stm, st1, h1, h2, ?_⟩
    rw [hsn]
    exact h3

/-- Witness for C7 in a two-snake state: snake 1's eating step leaves
it at length 2 with counter 2; snake 2's food-free step consumes one
of its five growth units and adds a segment; in `steady_state` snake
1's food-free zero-growth step keeps length 1; and in the two-snake
`mixed_world` tick, snake 2's entry is transformed by exactly one step
applied to its pre-tick entry. -/
theorem thm_C7_witness :
    ((lookupSnake 1 eat_state_a.snakes).map
        (fun s1 => (s1.alive, s1.grow, s1.body.length)) = some (true, 2, 2)) ∧
    ((lookupSnake 2 eat_state_b.snakes).map
        (fun s1 => (s1.alive, s1.grow, s1.body.length)) = some (true, 4, 2)) ∧
    ((lookupSnake 1 steady_state_a.snakes).map
        (fun s1 => (s1.alive, s1.grow, s1.body.length)) = some (true, 0, 1)) ∧
    (∃ stm st1, lookupSnake 2 stm.snakes = some ⟨2, [(5, 5)], .D, 0, true⟩ ∧
      tick_snake stm 2 = some st1 ∧
      lookupSnake 2 mixed_world_after.snakes = lookupSnake 2 st1.snakes) :=
  ⟨thm_C7.1 eat_state 1 ⟨1, [(0, 0)], .R, 0, true⟩ (0, 0) [] eat_state_a
      (by decide) (by decide) (by decide) (by decide) (by decide)
      (by decide) (by decide),
   thm_C7.2.1 eat_state 2 ⟨2, [(9, 9)], .D, 5, true⟩ (9, 9) [] eat_state_b
      (by decide) (by decide) (by decide) (by decide) (by decide)
      (by decide) (by decide),
   thm_C7.2.2.1 steady_state 1 ⟨1, [(3, 3)], .R, 0, true⟩ (3, 3) []
      steady_state_a (by decide) (by decide) (by decide) (by decide)
      (by decide) (by decide) (by decide),
   thm_C7.2.2.2 mixed_world [] mixed_world_after [] 2
      ⟨2, [(5, 5)], .D, 0, true⟩ (by decide) (by decide) (by decide)⟩

theorem death_notes_foldl : ∀ (tk writers : List Nat) (acc : List DeathNote),
    tk.foldl (fun acc pid => if pid ∈ writers then acc ++ [⟨pid, pid⟩] else acc) acc =
      acc ++ (tk.filter (fun p => decide (p ∈ writers))).map
        (fun p => (⟨p, p⟩ : DeathNote)) := by
  intro tk
  induction tk with
  | nil => intro writers acc; simp
  | cons p tk ih =>
    intro writers acc
    rw [List.foldl_cons]
    by_cases hp : p ∈ writers
    · rw [if_pos hp, ih, List.filter_cons_of_pos (by simp [hp])]
      simp
    · rw [if_neg hp, ih, List.filter_cons_of_neg (by simp [hp])]

theorem death_notes_eq (tk writers : List Nat) :
    death_notes tk writers =
      (tk.filter (fun p => decide (p ∈ writers))).map
        (fun p => (⟨p, p⟩ : DeathNote)) := by
  unfold death_notes
  rw [death_notes_foldl]
  simp

theorem mem_keys_of_alive {l : List (Nat × Snake)} {p : Nat}
    (h : alive_at l p = true) : p ∈ l.map Prod.fst := by
  unfold alive_at at h
  cases hl : lookupSnake p l with
  | none => rw [hl] at h; simp at h
  | some s => exact lookupSnake_mem_keys hl

/-- Claim C8: in a tick, the kill list collects exactly the snakes that
died this tick, without duplicates; the notification loop emits exactly
one `{type:'dead', pid}` note per dead snake that still has a
registered writer, addressed only to that snake's own transport (the
payload id and the target id coincide), and no note otherwise.  Write
failures are swallowed by the bare `except` (server.py line 221-222)
and the emitted notes and world state do not depend on them. -/
theorem thm_C8 (w : World) (cands : List (Nat × Nat)) (w' : World) (tk : List Nat)
    (hnd : (w.snakes.map Prod.fst).Nodup)
    (h : game_tick w cands = some (w', tk)) :
    tk.Nodup
    ∧ (∀ p, p ∈ tk ↔ alive_at w.snakes p = true ∧ alive_at w'.snakes p = false)
    ∧ (∀ n ∈ death_notes tk w.writers,
        n.target = n.payload_pid ∧ n.target ∈ tk ∧ n.target ∈ w.writers)
    ∧ (∀ p, (death_notes tk w.writers).countP (fun n => n.target == p) =
        if p ∈ tk ∧ p ∈ w.writers then 1 else 0) := by
  obtain ⟨st', hf, hsn, _, _, _, htk⟩ := game_tick_elim h
  obtain ⟨killed, hkeq, hknd, hkiff⟩ := tick_fold_kill_spec hnd hf
  have htk2 : tk = killed := by
    rw [htk, hkeq]
    simp
  subst htk2
  have hiff : ∀ p, p ∈ tk ↔ alive_at w.snakes p = true ∧ alive_at w'.snakes p = false := by
    intro p
    rw [hkiff p]
    constructor
    · rintro ⟨_, h2, h3⟩
      refine ⟨h2, ?_⟩
      rw [@alive_at_eq_of_lookup_eq w'.snakes st'.snakes p (by rw [hsn])]
      exact h3
    · rintro ⟨h2, h3⟩
      refine ⟨mem_keys_of_alive h2, h2, ?_⟩
      rw [← @alive_at_eq_of_lookup_eq w'.snakes st'.snakes p (by rw [hsn])]
      exact h3
  refine ⟨hknd, hiff, ?_, ?_⟩
  · intro n hn
    rw [death_notes_eq] at hn
    obtain ⟨p, hp, hpn⟩ := List.mem_map.mp hn
    obtain ⟨hp1, hp2⟩ := List.mem_filter.mp hp
    subst hpn
    exact ⟨rfl, hp1, by simpa using hp2⟩
  · intro p
    rw [death_notes_eq, List.countP_map]
    have heq : ((fun n => DeathNote.target n == p) ∘ fun q => (⟨q, q⟩ : DeathNote)) =
        (fun q => q == p) := rfl
    rw [heq]
    by_cases hp : p ∈ tk ∧ p ∈ w.writers
    · rw [if_pos hp]
      have hmf : p ∈ tk.filter (fun q => decide (q ∈ w.writers)) :=
        List.mem_filter.mpr ⟨hp.1, by simp [hp.2]⟩
      have := List.count_eq_one_of_mem (hknd.filter _) hmf
      simpa [List.count] using this
    · rw [if_neg hp]
      have hnm : p ∉ tk.filter (fun q => decide (q ∈ w.writers)) := by
        intro hm
        obtain ⟨h1, h2⟩ := List.mem_filter.mp hm
        exact hp ⟨h1, by simpa using h2⟩
      have := List.count_eq_zero.mpr hnm
      simpa [List.count] using this

/-- Witness for C8: the loop snake dies in its tick; its kill list is
the duplicate-free [1], the death iff holds at id 1, and exactly one
note targets writer 1. -/
theorem thm_C8_witness :
    ([1] : List Nat).Nodup ∧
    (1 ∈ ([1] : List Nat) ↔
      alive_at tail_world.snakes 1 = true ∧
      alive_at tail_world_after.snakes 1 = false) ∧
    (death_notes [1] tail_world.writers).countP (fun n => n.target == 1) =
      if 1 ∈ ([1] : List Nat) ∧ 1 ∈ tail_world.writers then 1 else 0 := by
  obtain ⟨h1, h2, _, h4⟩ :=
    thm_C8 tail_world [] tail_world_after [1] (by decide) (by decide)
  exact ⟨h1, h2 1, h4 1⟩

theorem bc_pass_foldl (writers : List Nat) (data : FrameMsg) (fails : Nat → Bool) :
    ∀ acc : List (Nat × FrameMsg) × List Nat,
    writers.foldl
      (fun (acc : List (Nat × FrameMsg) × List Nat) pid =>
        (acc.1 ++ [(pid, data)], if fails pid then acc.2 ++ [pid] else acc.2)) acc =
    (acc.1 ++ writers.map (fun pid => (pid, data)), acc.2 ++ writers.filter fails) := by
  induction writers with
  | nil => intro acc; simp
  | cons p ws ih =>
    intro acc
    rw [List.foldl_cons, ih]
    cases hp : fails p with
    | true =>
      rw [if_pos rfl, List.filter_cons_of_pos hp]
      simp
    | false =>
      rw [if_neg (by simp), List.filter_cons_of_neg (by simp [hp])]
      simp

theorem foldl_erase_cons : ∀ (ds : List Nat) (a : Nat) (t : List Nat), a ∉ ds →
    ds.foldl (fun ws p => ws.erase p) (a :: t) =
      a :: ds.foldl (fun ws p => ws.erase p) t := by
  intro ds
  induction ds with
  | nil => intro a t _; rfl
  | cons d ds ih =>
    intro a t ha
    have hne : a ≠ d := fun he => ha (he ▸ List.mem_cons_self _ _)
    rw [List.foldl_cons, List.foldl_cons]
    have hda : (a :: t).erase d = a :: t.erase d := by
      simp [List.erase_cons, hne]
    rw [hda]
    exact ih a (t.erase d) (fun hm => ha (List.mem_cons_of_mem _ hm))

theorem erase_fold_filter : ∀ {l : List Nat}, l.Nodup → ∀ f : Nat → Bool,
    (l.filter f).foldl (fun ws p => ws.erase p) l =
      l.filter (fun p => !(f p)) := by
  intro l
  induction l with
  | nil => intro _ f; rfl
  | cons a t ih =>
    intro hnd f
    have hat : a ∉ t := (List.nodup_cons.mp hnd).1
    have hndt := (List.nodup_cons.mp hnd).2
    cases hfa : f a with
    | true =>
      rw [List.filter_cons_of_pos hfa, List.foldl_cons]
      have he : (a :: t).erase a = t := by simp [List.erase_cons]
      rw [he, List.filter_cons_of_neg (by simp [hfa])]
      exact ih hndt f
    | false =>
      rw [List.filter_cons_of_neg (by simp [hfa])]
      rw [foldl_erase_cons _ a t (fun hm => hat (List.mem_of_mem_filter hm))]
      rw [List.filter_cons_of_pos (by simp [hfa])]
      rw [ih hndt f]

/-- Claim C9: a broadcast pass attempts every registered transport once,
in registration order, all with the identical frame data; transports
whose write failed are removed from the registration map only after the
full pass (so a failure does not stop later attempts), and the removal
is by filtering the failed ids out, leaving the snake map, the food and
the id counter untouched. -/
theorem thm_C9 (w : World) (fails : Nat → Bool) (w' : World)
    (att : List (Nat × FrameMsg)) (hnd : w.writers.Nodup)
    (h : broadcast_frame w fails = some (w', att)) :
    att.map Prod.fst = w.writers
    ∧ (∀ a ∈ att, ∀ b ∈ att, a.2 = b.2)
    ∧ w'.writers = w.writers.filter (fun p => !(fails p))
    ∧ w'.snakes = w.snakes ∧ w'.food = w.food ∧ w'.next_pid = w.next_pid := by
  unfold broadcast_frame at h
  cases hr : render_rows w with
  | none =>
    rw [hr] at h
    simp at h
  | some rs =>
    rw [hr] at h
    dsimp only at h
    rw [bc_pass_foldl w.writers _ fails ([], [])] at h
    simp only [List.nil_append, Option.some.injEq, Prod.mk.injEq] at h
    obtain ⟨hw, hatt⟩ := h
    subst hatt
    refine ⟨by rw [List.map_map]; exact List.map_id' w.writers, ?_, ?_, ?_, ?_, ?_⟩
    · intro a ha b hb
      obtain ⟨pa, _, hpa⟩ := List.mem_map.mp ha
      obtain ⟨pb, _, hpb⟩ := List.mem_map.mp hb
      rw [← hpa, ← hpb]
    · rw [← hw]
      dsimp only
      exact erase_fold_filter hnd fails
    · rw [← hw]
    · rw [← hw]
    · rw [← hw]

/-- Witness for C9 at a concrete world: three registered writers, the
write to id 2 fails; all three are attempted and only id 2 is removed
afterwards. -/
theorem thm_C9_witness :
    ([(1, bc_frame), (2, bc_frame), (3, bc_frame)] : List (Nat × FrameMsg)).map
        Prod.fst = bc_world.writers ∧
    (⟨[], [1, 3], [], 4⟩ : World).writers =
      bc_world.writers.filter (fun p => !(bc_fails p)) := by
  obtain ⟨h1, _, h3, _⟩ :=
    thm_C9 bc_world bc_fails ⟨[], [1, 3], [], 4⟩
      [(1, bc_frame), (2, bc_frame), (3, bc_frame)] (by decide) (by decide)
  exact ⟨h1, h3⟩

theorem in_bounds_next_head (d : Dir) (h : Pos) : in_bounds (next_head d h) := by
  unfold in_bounds next_head
  refine ⟨Int.emod_nonneg _ (by norm_num [WIDTH]), ?_,
    Int.emod_nonneg _ (by norm_num [HEIGHT]), ?_⟩
  · exact Int.emod_lt_of_pos _ (by norm_num [WIDTH])
  · exact Int.emod_lt_of_pos _ (by norm_num [HEIGHT])

theorem spawn_food_pos : ∀ {cands : List (Nat × Nat)}
    {snakes : List (Nat × Snake)} {food : List Pos} {p : Pos}
    {rest : List (Nat × Nat)},
    spawn_food snakes food cands = some (p, rest) → in_bounds p := by
  intro cands
  induction cands with
  | nil => intro _ _ _ _ h; simp [spawn_food] at h
  | cons c cs ih =>
    intro snakes food p rest h
    simp only [spawn_food] at h
    split at h
    · exact ih h
    · split at h
      · exact ih h
      · injection h with h
        injection h with h1 h2
        subst h1
        refine ⟨Int.emod_nonneg _ (by norm_num [WIDTH]), ?_,
          Int.emod_nonneg _ (by norm_num [HEIGHT]), ?_⟩
        · exact Int.emod_lt_of_pos _ (by norm_num [WIDTH])
        · exact Int.emod_lt_of_pos _ (by norm_num [HEIGHT])

theorem SnakeOK_tail_rule {s : Snake} {head : Pos} {g : Int}
    (hok : SnakeOK s) (hb : in_bounds head) (hg : 0 ≤ g) :
    SnakeOK (tail_rule { s with body := head :: s.body, grow := g }) := by
  unfold tail_rule
  split
  · rename_i hgpos
    dsimp only at hgpos
    refine ⟨by simp, ?_, by dsimp only; omega⟩
    intro p hp
    rcases List.mem_cons.mp hp with rfl | hp
    · exact hb
    · exact hok.2.1 p hp
  · refine ⟨?_, ?_, by dsimp only; omega⟩
    · dsimp only
      have hlen : ((head :: s.body).dropLast).length = s.body.length := by
        simp [List.length_dropLast]
      intro hnil
      rw [hnil] at hlen
      have := hok.1
      simp at hlen
      exact this (List.eq_nil_of_length_eq_zero hlen.symm)
    · intro p hp
      dsimp only at hp
      have hp2 : p ∈ head :: s.body := List.dropLast_subset _ hp
      rcases List.mem_cons.mp hp2 with rfl | hp2
      · exact hb
      · exact hok.2.1 p hp2

theorem move_snake_inv {st st1 : TickState} {pid : Nat} {s : Snake} {head : Pos}
    {npid : Nat} (hinv : TickInv st npid)
    (hok : SnakeOK s) (hb : in_bounds head) (hpid : pid < npid)
    (h : move_snake st pid s head = some st1) : TickInv st1 npid := by
  have hok1 : SnakeOK { s with body := head :: s.body } := by
    refine ⟨by simp, ?_, hok.2.2⟩
    intro p hp
    rcases List.mem_cons.mp hp with rfl | hp
    · exact hb
    · exact hok.2.1 p hp
  have hok2 : SnakeOK { s with body := head :: s.body, grow := s.grow + 3 } := by
    refine ⟨hok1.1, hok1.2.1, ?_⟩
    have := hok.2.2
    dsimp only
    omega
  simp only [move_snake] at h
  split at h
  · rename_i hfd
    split at h
    · simp at h
    · rename_i pr hsp
      injection h with h
      subst h
      refine ⟨?_, ?_, ?_⟩
      · intro e he
        dsimp only at he
        rcases mem_setSnake he with he | he
        · rcases mem_setSnake he with he | he
          · rcases mem_setSnake he with he | he
            · exact hinv.1 e he
            · subst he
              exact ⟨hok1, hpid⟩
          · subst he
            exact ⟨hok2, hpid⟩
        · subst he
          refine ⟨?_, hpid⟩
          exact SnakeOK_tail_rule hok hb (by have := hok.2.2; omega)
      · dsimp only
        rw [keys_setSnake, keys_setSnake, keys_setSnake]
        exact hinv.2.1
      · dsimp only
        intro p hp
        rcases List.mem_append.mp hp with hp | hp
        · exact hinv.2.2 p (List.mem_of_mem_erase hp)
        · rw [List.mem_singleton.mp hp]
          exact spawn_food_pos hsp
  · injection h with h
    subst h
    refine ⟨?_, ?_, hinv.2.2⟩
    · intro e he
      dsimp only at he
      rcases mem_setSnake he with he | he
      · rcases mem_setSnake he with he | he
        · exact hinv.1 e he
        · subst he
          exact ⟨hok1, hpid⟩
      · subst he
        exact ⟨SnakeOK_tail_rule hok hb hok.2.2, hpid⟩
    · dsimp only
      rw [keys_setSnake, keys_setSnake]
      exact hinv.2.1

theorem tick_snake_inv {st st1 : TickState} {pid npid : Nat}
    (hinv : TickInv st npid) (h : tick_snake st pid = some st1) :
    TickInv st1 npid := by
  simp only [tick_snake] at h
  split at h
  · injection h with h
    subst h
    exact hinv
  · rename_i s hl
    split at h
    · injection h with h
      subst h
      exact hinv
    · split at h
      · simp at h
      · rename_i hd tl hbeq
        split at h
        · injection h with h
          subst h
          obtain ⟨hoks, hpid⟩ := hinv.1 (pid, s) (lookupSnake_mem hl)
          refine ⟨?_, ?_, hinv.2.2⟩
          · intro e he
            dsimp only at he
            rcases mem_setSnake he with he | he
            · exact hinv.1 e he
            · subst he
              exact ⟨⟨hoks.1, hoks.2.1, hoks.2.2⟩, hpid⟩
          · dsimp only
            rw [keys_setSnake]
            exact hinv.2.1
        · obtain ⟨hoks, hpid⟩ := hinv.1 (pid, s) (lookupSnake_mem hl)
          exact move_snake_inv hinv hoks (in_bounds_next_head s.dir hd) hpid h

theorem tick_fold_inv : ∀ {ps : List Nat} {st st' : TickState} {npid : Nat},
    TickInv st npid → tick_fold ps st = some st' → TickInv st' npid := by
  intro ps
  induction ps with
  | nil =>
    intro st st' npid hinv h
    rw [tick_fold_nil] at h
    injection h with h
    subst h
    exact hinv
  | cons p ps ih =>
    intro st st' npid hinv h
    cases hts : tick_snake st p with
    | none =>
      rw [tick_fold_cons_none ps hts] at h
      simp at h
    | some st1 =>
      rw [tick_fold_cons_some ps hts] at h
      exact ih (tick_snake_inv hinv hts) h

theorem WorldInv_setSnake {w : World} {pid : Nat} {s t : Snake}
    (hinv : WorldInv w) (hl : lookupSnake pid w.snakes = some s)
    (ht : SnakeOK t) :
    WorldInv { w with snakes := setSnake pid t w.snakes } := by
  obtain ⟨_, hpid⟩ := hinv.1 (pid, s) (lookupSnake_mem hl)
  refine ⟨?_, ?_, hinv.2.2.1, hinv.2.2.2.1, hinv.2.2.2.2⟩
  · intro e he
    dsimp only at he
    rcases mem_setSnake he with he | he
    · exact hinv.1 e he
    · subst he
      exact ⟨ht, hpid⟩
  · dsimp only
    rw [keys_setSnake]
    exact hinv.2.1

theorem WorldInv_apply_cmd (w : World) (pid : Nat) (d : Dir)
    (hinv : WorldInv w) : WorldInv (apply_cmd w pid d) := by
  unfold apply_cmd
  split
  · exact hinv
  · rename_i s hl
    split
    · exact hinv
    · split
      · apply WorldInv_setSnake hinv hl
        obtain ⟨hoks, _⟩ := hinv.1 (pid, s) (lookupSnake_mem hl)
        exact ⟨hoks.1, hoks.2.1, hoks.2.2⟩
      · split
        · split
          · apply WorldInv_setSnake hinv hl
            obtain ⟨hoks, _⟩ := hinv.1 (pid, s) (lookupSnake_mem hl)
            exact ⟨hoks.1, hoks.2.1, hoks.2.2⟩
          · exact hinv
        · exact hinv

theorem WorldInv_session_cleanup (w : World) (pid : Nat) (hinv : WorldInv w) :
    WorldInv (session_cleanup w pid) := by
  have hwr1 : (w.writers.erase pid).Nodup :=
    List.Nodup.erase _ hinv.2.2.2.1
  have hwr2 : ∀ q ∈ w.writers.erase pid, q < w.next_pid := fun q hq =>
    hinv.2.2.2.2 q (List.mem_of_mem_erase hq)
  unfold session_cleanup
  cases hlk : lookupSnake pid w.snakes with
  | none => exact ⟨hinv.1, hinv.2.1, hinv.2.2.1, hwr1, hwr2⟩
  | some s =>
    obtain ⟨hoks, hpid⟩ := hinv.1 (pid, s) (lookupSnake_mem hlk)
    refine ⟨?_, ?_, hinv.2.2.1, hwr1, hwr2⟩
    · intro e he
      dsimp only at he
      rcases mem_setSnake he with he | he
      · exact hinv.1 e he
      · subst he
        exact ⟨⟨hoks.1, hoks.2.1, hoks.2.2⟩, hpid⟩
    · dsimp only
      rw [keys_setSnake]
      exact hinv.2.1

theorem WorldInv_accept (w : World) (sx sy : Nat) (d : Dir) (hinv : WorldInv w) :
    WorldInv (accept_client w sx sy d).1 := by
  unfold accept_client
  dsimp only
  refine ⟨?_, ?_, hinv.2.2.1, ?_, ?_⟩
  · intro e he
    rcases List.mem_append.mp he with he | he
    · obtain ⟨hok, hb⟩ := hinv.1 e he
      exact ⟨hok, Nat.lt_succ_of_lt hb⟩
    · rw [List.mem_singleton.mp he]
      refine ⟨⟨by simp, ?_, by norm_num⟩, Nat.lt_succ_self _⟩
      intro p hp
      rw [List.mem_singleton.mp hp]
      exact ⟨Int.emod_nonneg _ (by norm_num [WIDTH]),
        Int.emod_lt_of_pos _ (by norm_num [WIDTH]),
        Int.emod_nonneg _ (by norm_num [HEIGHT]),
        Int.emod_lt_of_pos _ (by norm_num [HEIGHT])⟩
  · rw [List.map_append]
    apply List.Nodup.append hinv.2.1 (List.nodup_singleton _)
    intro a ha hb
    rw [List.mem_singleton.mp hb] at ha
    obtain ⟨e, he, hfst⟩ := List.mem_map.mp ha
    have := (hinv.1 e he).2
    rw [hfst] at this
    exact absurd this (lt_irrefl _)
  · apply List.Nodup.append hinv.2.2.2.1 (List.nodup_singleton _)
    intro a ha hb
    rw [List.mem_singleton.mp hb] at ha
    exact absurd (hinv.2.2.2.2 _ ha) (lt_irrefl _)
  · intro q hq
    rcases List.mem_append.mp hq with hq | hq
    · exact Nat.lt_succ_of_lt (hinv.2.2.2.2 q hq)
    · rw [List.mem_singleton.mp hq]
      exact Nat.lt_succ_self _

theorem foldl_erase_subset : ∀ (ds l : List Nat),
    (ds.foldl (fun ws p => ws.erase p) l) ⊆ l := by
  intro ds
  induction ds with
  | nil => intro l a ha; exact ha
  | cons dd ds ih =>
    intro l
    rw [List.foldl_cons]
    exact fun a ha => List.erase_subset _ _ (ih (l.erase dd) ha)

theorem foldl_erase_nodup : ∀ (ds : List Nat) {l : List Nat}, l.Nodup →
    (ds.foldl (fun ws p => ws.erase p) l).Nodup := by
  intro ds
  induction ds with
  | nil => intro l h; exact h
  | cons dd ds ih =>
    intro l h
    rw [List.foldl_cons]
    exact ih (List.Nodup.erase _ h)

theorem WorldInv_broadcast (w : World) (fails : Nat → Bool) (w' : World)
    (att : List (Nat × FrameMsg)) (hinv : WorldInv w)
    (h : broadcast_frame w fails = some (w', att)) : WorldInv w' := by
  unfold broadcast_frame at h
  cases hr : render_rows w with
  | none =>
    rw [hr] at h
    simp at h
  | some rs =>
    rw [hr] at h
    dsimp only at h
    simp only [Option.some.injEq, Prod.mk.injEq] at h
    obtain ⟨hw, -⟩ := h
    subst hw
    refine ⟨hinv.1, hinv.2.1, hinv.2.2.1, ?_, ?_⟩
    · exact foldl_erase_nodup _ hinv.2.2.2.1
    · intro q hq
      exact hinv.2.2.2.2 q (foldl_erase_subset _ _ hq)

theorem handle_line_shape (w : World) (pid : Nat) (line : LineMsg) :
    handle_line w pid line = none ∨ handle_line w pid line = some w ∨
    ∃ d, handle_line w pid line = some (apply_cmd w pid d) := by
  cases line with
  | garbage =>
    right; left; rfl
  | val v =>
    cases v with
    | jobj fields =>
      cases hc : is_cmd (jget fields "type") with
      | false =>
        right; left
        simp [handle_line, hc]
      | true =>
        cases hd : jget fields "dir" with
        | none =>
          right; left
          simp [handle_line, hc, hd]
        | some dv =>
          cases dv with
          | jstr k =>
            cases hds : dir_of_string k with
            | none =>
              right; left
              simp [handle_line, hc, hd, hashable, hds]
            | some dd =>
              right; right
              exact ⟨dd, by simp [handle_line, hc, hd, hashable, hds]⟩
          | jarr es =>
            left
            simp [handle_line, hc, hd, hashable]
          | jobj fs =>
            left
            simp [handle_line, hc, hd, hashable]
          | jnull =>
            right; left
            simp [handle_line, hc, hd, hashable]
          | jbool b =>
            right; left
            simp [handle_line, hc, hd, hashable]
          | jnum n =>
            right; left
            simp [handle_line, hc, hd, hashable]
    | jnull => left; rfl
    | jbool b => left; rfl
    | jnum n => left; rfl
    | jstr k => left; rfl
    | jarr es => left; rfl

theorem py_idx_of_bounds {n : Nat} {i : Int} (h0 : 0 ≤ i) (hn : i < (n : Int)) :
    py_idx n i = some i.toNat := by
  unfold py_idx
  rw [if_neg (not_lt.mpr h0)]
  rw [if_pos ⟨h0, hn⟩]

theorem py_set2_ok {rows : List (List Char)} {y x : Int} (c : Char)
    (hlen : rows.length = HEIGHT.toNat)
    (hrow : ∀ r ∈ rows, r.length = WIDTH.toNat)
    (hin : in_bounds (x, y)) :
    ∃ rows', py_set2 rows y x c = some rows' ∧ rows'.length = HEIGHT.toNat ∧
      ∀ r ∈ rows', r.length = WIDTH.toNat := by
  obtain ⟨hx0, hxW, hy0, hyH⟩ := hin
  dsimp only at hx0 hxW hy0 hyH
  have hcH : ((HEIGHT.toNat : Nat) : Int) = HEIGHT := by decide
  have hcW : ((WIDTH.toNat : Nat) : Int) = WIDTH := by decide
  have hyn : y < (rows.length : Int) := by
    rw [hlen, hcH]
    exact hyH
  have hylt : y.toNat < rows.length := by
    rw [hlen]
    have : HEIGHT.toNat = 15 := by decide
    rw [this]
    omega
  unfold py_set2
  rw [py_idx_of_bounds hy0 hyn]
  dsimp only
  rw [List.get?_eq_get hylt]
  dsimp only
  have hrmem : rows.get ⟨y.toNat, hylt⟩ ∈ rows := List.get_mem rows _ _
  have hrlen := hrow _ hrmem
  have hxn : x < ((rows.get ⟨y.toNat, hylt⟩).length : Int) := by
    rw [hrlen, hcW]
    exact hxW
  rw [py_idx_of_bounds hx0 hxn]
  dsimp only
  refine ⟨_, rfl, by simp [hlen], ?_⟩
  intro r hr
  rcases List.mem_or_eq_of_mem_set hr with hr | hr
  · exact hrow r hr
  · rw [hr]
    rw [List.length_set]
    exact hrlen

theorem draw_food_ok : ∀ (food : List Pos) {rows : List (List Char)},
    rows.length = HEIGHT.toNat → (∀ r ∈ rows, r.length = WIDTH.toNat) →
    (∀ p ∈ food, in_bounds p) →
    ∃ rows', draw_food rows food = some rows' ∧ rows'.length = HEIGHT.toNat ∧
      ∀ r ∈ rows', r.length = WIDTH.toNat := by
  intro food
  induction food with
  | nil => intro rows h1 h2 _; exact ⟨rows, rfl, h1, h2⟩
  | cons p ps ih =>
    intro rows h1 h2 hf
    obtain ⟨rows1, hset, h1', h2'⟩ :=
      py_set2_ok '*' h1 h2 (hf p (List.mem_cons_self _ _))
    have hres := ih h1' h2' (fun q hq => hf q (List.mem_cons_of_mem _ hq))
    obtain ⟨rows2, hdf, hh1, hh2⟩ := hres
    refine ⟨rows2, ?_, hh1, hh2⟩
    simp only [draw_food, hset]
    exact hdf

theorem draw_body_ok : ∀ (body : List Pos) (ch : Char) (i : Nat)
    {rows : List (List Char)},
    rows.length = HEIGHT.toNat → (∀ r ∈ rows, r.length = WIDTH.toNat) →
    (∀ p ∈ body, in_bounds p) →
    ∃ rows', draw_body ch i rows body = some rows' ∧
      rows'.length = HEIGHT.toNat ∧ ∀ r ∈ rows', r.length = WIDTH.toNat := by
  intro body
  induction body with
  | nil => intro ch i rows h1 h2 _; exact ⟨rows, rfl, h1, h2⟩
  | cons p ps ih =>
    intro ch i rows h1 h2 hf
    obtain ⟨rows1, hset, h1', h2'⟩ :=
      py_set2_ok (if i > 0 then ch else ch.toUpper) h1 h2
        (hf p (List.mem_cons_self _ _))
    obtain ⟨rows2, hdb, hh1, hh2⟩ :=
      ih ch (i + 1) h1' h2' (fun q hq => hf q (List.mem_cons_of_mem _ hq))
    refine ⟨rows2, ?_, hh1, hh2⟩
    simp only [draw_body, hset]
    exact hdb

theorem draw_snakes_ok : ∀ (l : List (Nat × Snake)) {rows : List (List Char)},
    rows.length = HEIGHT.toNat → (∀ r ∈ rows, r.length = WIDTH.toNat) →
    (∀ e ∈ l, SnakeOK e.2) →
    ∃ rows', draw_snakes rows l = some rows' ∧
      rows'.length = HEIGHT.toNat ∧ ∀ r ∈ rows', r.length = WIDTH.toNat := by
  intro l
  induction l with
  | nil => intro rows h1 h2 _; exact ⟨rows, rfl, h1, h2⟩
  | cons e rest ih =>
    intro rows h1 h2 hs
    obtain ⟨q, s⟩ := e
    cases ha : s.alive with
    | false =>
      obtain ⟨rows2, hds, hh1, hh2⟩ :=
        ih h1 h2 (fun e2 he2 => hs e2 (List.mem_cons_of_mem _ he2))
      refine ⟨rows2, ?_, hh1, hh2⟩
      simp only [draw_snakes, ha]
      exact hds
    | true =>
      have hok := hs (q, s) (List.mem_cons_self _ _)
      obtain ⟨rows1, hdb, h1', h2'⟩ :=
        draw_body_ok s.body (digit_char q) 0 h1 h2 hok.2.1
      obtain ⟨rows2, hds, hh1, hh2⟩ :=
        ih h1' h2' (fun e2 he2 => hs e2 (List.mem_cons_of_mem _ he2))
      refine ⟨rows2, ?_, hh1, hh2⟩
      simp only [draw_snakes, ha, hdb]
      exact hds

theorem render_rows_ok {w : World} (hinv : WorldInv w) :
    ∃ rows, render_rows w = some rows ∧ rows.length = HEIGHT.toNat ∧
      ∀ r ∈ rows, r.length = WIDTH.toNat := by
  have hbase1 :
      (List.replicate HEIGHT.toNat (List.replicate WIDTH.toNat '.')).length =
        HEIGHT.toNat := by simp
  have hbase2 : ∀ r ∈ List.replicate HEIGHT.toNat (List.replicate WIDTH.toNat '.'),
      r.length = WIDTH.toNat := by
    intro r hr
    rw [List.eq_of_mem_replicate hr]
    simp
  obtain ⟨rows1, hdf, h1, h2⟩ := draw_food_ok w.food hbase1 hbase2 hinv.2.2.1
  obtain ⟨rows2, hds, h1', h2'⟩ :=
    draw_snakes_ok w.snakes h1 h2 (fun e he => (hinv.1 e he).1)
  refine ⟨rows2, ?_, h1', h2'⟩
  simp only [render_rows, hdf]
  exact hds

/-- Claim C10: the server state invariant — every snake body non-empty
and on the grid with a duplicate-free key set below the id counter,
food on the grid, writer registrations duplicate-free below the id
counter (the facing is a `DIRS` key by construction of the `Dir` type,
and pending growth stays non-negative) — is preserved by connection
acceptance, by processing one session line (including the crash path
through the cleanup), by the physics tick, by the broadcast pass and by
the disconnect cleanup; consequently rendering a frame always succeeds
(no index is ever out of range) with HEIGHT rows of WIDTH cells. -/
theorem thm_C10 :
    (∀ w sx sy d, WorldInv w → WorldInv (accept_client w sx sy d).1)
    ∧ (∀ w pid line, WorldInv w →
        WorldInv (outcome_world (session_step w pid line)))
    ∧ (∀ w cands w' tk, WorldInv w → game_tick w cands = some (w', tk) →
        WorldInv w')
    ∧ (∀ w fails w' att, WorldInv w →
        broadcast_frame w fails = some (w', att) → WorldInv w')
    ∧ (∀ w pid, WorldInv w → WorldInv (session_cleanup w pid))
    ∧ (∀ w, WorldInv w → ∃ rows, render_rows w = some rows ∧
        rows.length = HEIGHT.toNat ∧ ∀ r ∈ rows, r.length = WIDTH.toNat) := by
  refine ⟨?_, ?_, ?_, ?_, ?_, ?_⟩
  · intro w sx sy d hinv
    exact WorldInv_accept w sx sy d hinv
  · intro w pid line hinv
    unfold session_step
    rcases handle_line_shape w pid line with he | he | ⟨d, he⟩
    · rw [he]
      exact WorldInv_session_cleanup w pid hinv
    · rw [he]
      exact hinv
    · rw [he]
      exact WorldInv_apply_cmd w pid d hinv
  · intro w cands w' tk hinv h
    obtain ⟨st', hf, hsn, hfd, hwr, hnp, _⟩ := game_tick_elim h
    have ht : TickInv ⟨w.snakes, w.food, cands, []⟩ w.next_pid :=
      ⟨hinv.1, hinv.2.1, hinv.2.2.1⟩
    have ht' := tick_fold_inv ht hf
    refine ⟨?_, ?_, ?_, ?_, ?_⟩
    · rw [hsn, hnp]
      exact ht'.1
    · rw [hsn]
      exact ht'.2.1
    · rw [hfd]
      exact ht'.2.2
    · rw [hwr]
      exact hinv.2.2.2.1
    · rw [hwr, hnp]
      exact hinv.2.2.2.2
  · intro w fails w' att hinv h
    exact WorldInv_broadcast w fails w' att hinv h
  · intro w pid hinv
    exact WorldInv_session_cleanup w pid hinv
  · intro w hinv
    exact render_rows_ok hinv

/-- Witness for C10 at a concrete world satisfying the invariant:
acceptance, a crashing session line, a tick and the cleanup all keep
the invariant, and rendering succeeds with the full grid shape. -/
theorem thm_C10_witness :
    WorldInv inv_world ∧
    WorldInv (accept_client inv_world 3 4 Dir.U).1 ∧
    WorldInv (outcome_world (session_step inv_world 1 (.val (.jnum 7)))) ∧
    WorldInv (⟨[(1, ⟨1, [(1, 0)], .R, 0, true⟩)], [1], [(2, 2)], 2⟩ : World) ∧
    WorldInv (session_cleanup inv_world 1) ∧
    (∃ rows, render_rows inv_world = some rows ∧
      rows.length = HEIGHT.toNat ∧ ∀ r ∈ rows, r.length = WIDTH.toNat) :=
  ⟨by decide,
   thm_C10.1 inv_world 3 4 Dir.U (by decide),
   thm_C10.2.1 inv_world 1 (.val (.jnum 7)) (by decide),
   thm_C10.2.2.1 inv_world []
     (⟨[(1, ⟨1, [(1, 0)], .R, 0, true⟩)], [1], [(2, 2)], 2⟩ : World) []
     (by decide) (by decide),
   thm_C10.2.2.2.2.1 inv_world 1 (by decide),
   thm_C10.2.2.2.2.2 inv_world (by decide)⟩
